import Mathlib

/-!
# membuf: a paged, seekable in-memory byte buffer

A shallow embedding of `membuf.go` (package `membuf`) and a verification of its
read / write / seek contract.

Modelling conventions.

* Go `int` and `int64` are 64-bit two's complement integers.  They are modelled
  by `Int`; the only arithmetic on caller-supplied values (the additions in
  `Seek`) is wrapped explicitly by `wrapInt`.  The cursor additions `pagei += m`
  stay below the allocated size and are not wrapped.
* Lengths and counts of bytes (`len`, the result of `copy`, the returned `n`)
  are natural numbers.
* A `[]byte` value is a `List Byte`.  A `page` (`[pageSize]byte`) is a
  `List Byte`; `new(page)` is `pageSize` zero bytes.  A destination slice is
  passed in and returned, since `Read` writes into it.
* A run-time panic (index or slice bounds out of range) is the result
  `Res.panic`.  The `for` loops of `Read` and `Write` are unrolled with a fuel
  that the entry points set to `len(p)`; `Res.timeout` marks exhausted fuel and
  is shown never to occur (`Read_ne_timeout`, `Write_ne_timeout`).
* Calls into the logging package have no effect on the buffer and are omitted;
  the deferred `logData` is kept because its slice expressions can panic.
-/

namespace Membuf

/-- A byte. -/
abbrev Byte := Fin 256

/-- Source: `pagePow2 = 15`. -/
def pagePow2 : Nat := 15

/-- Source: `pageSize = 1 << pagePow2`. -/
def pageSize : Nat := 1 <<< pagePow2

/-- Source: `pageMask = pageSize - 1`. -/
def pageMask : Int := (pageSize : Int) - 1

/-- Source: `type page [pageSize]byte`. -/
abbrev Page := List Byte

/-- Source: `new(page)`, a zero-initialised page. -/
def newPage : Page := List.replicate pageSize 0

/-- The error values of the package, and `io.EOF`. -/
inductive Err where
  | EOF
  | errInvalidWhence
  | errSeekOutOfRange
  deriving DecidableEq

/-- Result of running code that may panic.  `timeout` is the exhausted-fuel
marker of the loop unrollings. -/
inductive Res (α : Type) where
  | ok (a : α)
  | panic
  | timeout
  deriving DecidableEq

/-- Source: `io.SeekStart`. -/
def SeekStart : Int := 0

/-- Source: `io.SeekCurrent`. -/
def SeekCurrent : Int := 1

/-- Source: `io.SeekEnd`. -/
def SeekEnd : Int := 2

/-- Source: `type Buffer struct { pages []*page; pagei int; lasti int }`. -/
structure Buffer where
  pages : List Page
  pagei : Int
  lasti : Int
  deriving DecidableEq

/-- Source: `new(membuf.Buffer)`, the zero value. -/
def Buffer.new : Buffer := ⟨[], 0, 0⟩

/-- Source: `type bufferIndex struct { pageIndex int; byteIndex int }`. -/
structure bufferIndex where
  pageIndex : Int
  byteIndex : Int
  deriving DecidableEq

/-- Two's complement wrap-around of a 64-bit signed integer. -/
def wrapInt (x : Int) : Int := (x + 2 ^ 63) % 2 ^ 64 - 2 ^ 63

/-- Source: `getBufferIndex`: `bufferIndex{i >> pagePow2, i & pageMask}`. -/
def getBufferIndex (i : Int) : bufferIndex :=
  ⟨i >>> pagePow2, Int.land i pageMask⟩

/-- Go index expression `xs[i]`: panics unless `0 <= i < len(xs)`. -/
def index {α : Type} (xs : List α) (i : Int) : Res α :=
  if 0 ≤ i then
    match xs[i.toNat]? with
    | some x => Res.ok x
    | none => Res.panic
  else Res.panic

/-- Go slice expression `xs[lo:]`: panics unless `0 <= lo <= len(xs)`. -/
def sliceFrom {α : Type} (xs : List α) (lo : Int) : Res (List α) :=
  if 0 ≤ lo ∧ lo ≤ xs.length then Res.ok (xs.drop lo.toNat) else Res.panic

/-- Go slice expression `xs[:hi]` on a slice whose capacity equals its length:
panics unless `0 <= hi <= cap(xs)`. -/
def sliceTo {α : Type} (xs : List α) (hi : Int) : Res (List α) :=
  if 0 ≤ hi ∧ hi ≤ xs.length then Res.ok (xs.take hi.toNat) else Res.panic

/-- Source: `bufferIndex.getPage`. -/
def bufferIndex.getPage (i : bufferIndex) (b : Buffer) : Res (List Byte) :=
  if b.pages.length = 0 then Res.ok []
  else
    match index b.pages i.pageIndex with
    | Res.ok pagePtr =>
      match sliceFrom pagePtr i.byteIndex with
      | Res.ok pg =>
        let lasti := getBufferIndex b.lasti
        if lasti.pageIndex = i.pageIndex then
          sliceTo pg (lasti.byteIndex - i.byteIndex)
        else Res.ok pg
      | Res.panic => Res.panic
      | Res.timeout => Res.timeout
    | Res.panic => Res.panic
    | Res.timeout => Res.timeout

/-- Go `copy(dst[at:], src)` as a value: `dst` with the `m` bytes from offset
`at` replaced by the first `m` bytes of `src`. -/
def copyAt (dst : List Byte) (at_ : Nat) (src : List Byte) (m : Nat) : List Byte :=
  dst.take at_ ++ src.take m ++ dst.drop (at_ + m)

/-- Source: one iteration of the `for i := range b.pages` loop of `logData`:
`getPage` may panic, and `p[i:]`, with `len(p) = lasti` and `i` already
multiplied by `pageSize`, panics unless `i <= len(p)`. -/
def logDataStep (b : Buffer) (i : Nat) : Res Unit :=
  match (getBufferIndex ((i : Int) * (pageSize : Int))).getPage b with
  | Res.ok _ => if (i : Int) * (pageSize : Int) ≤ b.lasti then Res.ok () else Res.panic
  | Res.panic => Res.panic
  | Res.timeout => Res.timeout

/-- Source: the `for i := range b.pages` loop of `logData` over the indices
still to visit. -/
def logDataLoop (b : Buffer) : List Nat → Res Unit
  | [] => Res.ok ()
  | i :: is =>
    match logDataStep b i with
    | Res.ok _ => logDataLoop b is
    | Res.panic => Res.panic
    | Res.timeout => Res.timeout

/-- Source: the body of `logData` up to the logging call.  `make([]byte, lasti)`
panics on a negative length. -/
def Buffer.logData (b : Buffer) : Res Unit :=
  if b.lasti < 0 then Res.panic
  else logDataLoop b (List.range b.pages.length)

/-- Source: the `for` loop of `Buffer.Read`; `n` is the running count and `p`
the destination.  Returns the buffer, the destination, `n` and `err`. -/
def readLoop : Nat → Buffer → List Byte → Nat → Res (Buffer × List Byte × Nat × Option Err)
  | 0, b, p, n => if p.length ≤ n then Res.ok (b, p, n, none) else Res.timeout
  | fuel + 1, b, p, n =>
    if p.length ≤ n then Res.ok (b, p, n, none)
    else
      match (getBufferIndex b.pagei).getPage b with
      | Res.ok pg =>
        let m := min (p.length - n) pg.length
        let p1 := copyAt p n pg m
        let b1 : Buffer := ⟨b.pages, b.pagei + m, b.lasti⟩
        if pg.length = 0 then Res.ok (b1, p1, n + m, some Err.EOF)
        else readLoop fuel b1 p1 (n + m)
      | Res.panic => Res.panic
      | Res.timeout => Res.timeout

/-- A deferred `logData` runs when the function returns; a panic in it replaces
the normal return. -/
def deferLogData {α : Type} (r : Res (Buffer × α)) : Res (Buffer × α) :=
  match r with
  | Res.ok (b, a) =>
    match b.logData with
    | Res.ok _ => Res.ok (b, a)
    | Res.panic => Res.panic
    | Res.timeout => Res.timeout
  | r => r

/-- Source: `Buffer.Read`.  Returns the buffer, the destination after the call,
`n` and `err`. -/
def Buffer.Read (b : Buffer) (p : List Byte) : Res (Buffer × List Byte × Nat × Option Err) :=
  deferLogData (readLoop p.length b p 0)

/-- Source: lines 90-94 of `Buffer.Write`: the slice `pg` before the
`len(pg) == 0` test, as a window into the pages: the index of its page, its
start offset in that page and its length (`pg[:cap(pg)]` always extends to the
end of the page).  With `pagei <= 0` the slice is `nil`. -/
def writeWindow (b : Buffer) : Res (Nat × Nat × Nat) :=
  let bi := getBufferIndex b.pagei
  if b.pagei > 0 then
    match index b.pages bi.pageIndex with
    | Res.ok pagePtr =>
      match sliceFrom pagePtr bi.byteIndex with
      | Res.ok pg => Res.ok (bi.pageIndex.toNat, bi.byteIndex.toNat, pg.length)
      | Res.panic => Res.panic
      | Res.timeout => Res.timeout
    | Res.panic => Res.panic
    | Res.timeout => Res.timeout
  else Res.ok (0, 0, 0)

/-- Source: one iteration of the `for` loop of `Buffer.Write` on the rest `s` of
the source.  Returns the buffer and the number `m` of bytes copied. -/
def writeBody (b : Buffer) (s : List Byte) : Res (Buffer × Nat) :=
  match writeWindow b with
  | Res.ok (wi, wo, wl) =>
    let pages1 := if wl = 0 then b.pages ++ [newPage] else b.pages
    let wi1 := if wl = 0 then b.pages.length else wi
    let wo1 := if wl = 0 then 0 else wo
    let wl1 := if wl = 0 then pageSize else wl
    let m := min wl1 s.length
    let pages2 := pages1.modify (fun pagePtr => copyAt pagePtr wo1 s m) wi1
    let pagei := b.pagei + m
    let lasti := if pagei > b.lasti then pagei else b.lasti
    Res.ok (⟨pages2, pagei, lasti⟩, m)
  | Res.panic => Res.panic
  | Res.timeout => Res.timeout

/-- Source: the `for` loop of `Buffer.Write`; `n` is the running count. -/
def writeLoop : Nat → Buffer → List Byte → Nat → Res (Buffer × Nat × Option Err)
  | 0, b, p, n => if p.length ≤ n then Res.ok (b, n, none) else Res.timeout
  | fuel + 1, b, p, n =>
    if p.length ≤ n then Res.ok (b, n, none)
    else
      match writeBody b (p.drop n) with
      | Res.ok (b1, m) => writeLoop fuel b1 p (n + m)
      | Res.panic => Res.panic
      | Res.timeout => Res.timeout

/-- Source: `Buffer.Write`.  Returns the buffer, `n` and `err`. -/
def Buffer.Write (b : Buffer) (p : List Byte) : Res (Buffer × Nat × Option Err) :=
  deferLogData (writeLoop p.length b p 0)

/-- Source: `Buffer.setPageI`. -/
def Buffer.setPageI (b : Buffer) (o : Int) : Buffer × Option Err :=
  if o < 0 ∨ o > b.lasti then (b, some Err.errSeekOutOfRange)
  else (⟨b.pages, o, b.lasti⟩, none)

/-- Source: `Buffer.Seek`.  Returns the buffer, `n` and `err`. -/
def Buffer.Seek (b : Buffer) (offset : Int) (whence : Int) : Buffer × Int × Option Err :=
  let o := wrapInt offset
  if whence = SeekCurrent then
    let r := b.setPageI (wrapInt (b.pagei + o))
    (r.1, r.1.pagei, r.2)
  else if whence = SeekStart then
    let r := b.setPageI o
    (r.1, r.1.pagei, r.2)
  else if whence = SeekEnd then
    let r := b.setPageI (wrapInt (b.lasti + o))
    (r.1, r.1.pagei, r.2)
  else (b, 0, some Err.errInvalidWhence)

/-- The byte at logical offset `j`: `pages[j >> pagePow2][j & pageMask]`. -/
def Buffer.byteAt (b : Buffer) (j : Int) : Option Byte :=
  match b.pages[(getBufferIndex j).pageIndex.toNat]? with
  | some pagePtr => pagePtr[(getBufferIndex j).byteIndex.toNat]?
  | none => none

/-- The states a program can obtain from `new(Buffer)` by calls of `Read`,
`Write` and `Seek` that return.  A call that panics yields no state; a `Seek`
that returns an error leaves the state as it was. -/
inductive Reachable : Buffer → Prop where
  | new : Reachable Buffer.new
  | read {b : Buffer} (p : List Byte) {r : Buffer × List Byte × Nat × Option Err} :
      Reachable b → b.Read p = Res.ok r → Reachable r.1
  | write {b : Buffer} (p : List Byte) {r : Buffer × Nat × Option Err} :
      Reachable b → b.Write p = Res.ok r → Reachable r.1
  | seek {b : Buffer} (offset whence : Int) :
      Reachable b → Reachable (b.Seek offset whence).1

/-- The state invariant: `0 <= pagei <= lasti <= len(pages) * pageSize`, and
every page has `pageSize` bytes (the array type `page`). -/
def Inv (b : Buffer) : Prop :=
  0 ≤ b.pagei ∧ b.pagei ≤ b.lasti ∧ b.lasti ≤ (b.pages.length : Int) * pageSize ∧
    ∀ pg ∈ b.pages, pg.length = pageSize

/-- Successive `Write` calls on one buffer, as issued by the loop of
`TestBuffer`, with the `(n, err)` each call returned. -/
def writeAll : Buffer → List (List Byte) → Res (Buffer × List (Nat × Option Err))
  | b, [] => Res.ok (b, [])
  | b, s :: ss =>
    match b.Write s with
    | Res.ok (b1, n, err) =>
      match writeAll b1 ss with
      | Res.ok (b2, rs) => Res.ok (b2, (n, err) :: rs)
      | Res.panic => Res.panic
      | Res.timeout => Res.timeout
    | Res.panic => Res.panic
    | Res.timeout => Res.timeout

/-- What a caller observes of `Seek`: the error if there is one, otherwise the
buffer and the offset returned. -/
def seekResult (r : Buffer × Int × Option Err) : Except Err (Buffer × Int) :=
  match r.2.2 with
  | some e => Except.error e
  | none => Except.ok (r.1, r.2.1)

/-- Reference definition of `Seek` in the words of the specification: an
unrecognised origin fails with the invalid-origin error; otherwise the candidate
is `offset`, `cursor + offset` or `length + offset`; it fails with out-of-range
when the candidate is negative or exceeds `length`, and otherwise the cursor is
set to the candidate, which is returned. -/
def seekRef (b : Buffer) (offset whence : Int) : Except Err (Buffer × Int) :=
  if whence ≠ SeekStart ∧ whence ≠ SeekCurrent ∧ whence ≠ SeekEnd then
    Except.error Err.errInvalidWhence
  else
    let c :=
      if whence = SeekStart then offset
      else if whence = SeekCurrent then b.pagei + offset
      else b.lasti + offset
    if c < 0 ∨ c > b.lasti then Except.error Err.errSeekOutOfRange
    else Except.ok (⟨b.pages, c, b.lasti⟩, c)

/-- The buffer that holds the data `d` in a single page, with the cursor at
`k`: no page when `d` is empty, otherwise the page `d` followed by zeros. -/
def dataBufAt (d : List Byte) (k : Nat) : Buffer :=
  ⟨if d.length = 0 then [] else [d ++ List.replicate (pageSize - d.length) 0], k, d.length⟩

/-- Source: `const helloWorld = "Hello, World!"` of the test file, as bytes. -/
def helloWorld : List Byte := [72, 101, 108, 108, 111, 44, 32, 87, 111, 114, 108, 100, 33]

/-- A byte string of exactly one page: `pageSize` bytes of value 7. -/
def fullPage : List Byte := List.replicate pageSize 7

/-- Source: `bufferIndex.value`:
`((i.pageIndex << 12) & ^pageMask) | (i.byteIndex & pageMask)`. -/
def bufferIndex.value (i : bufferIndex) : Int :=
  Int.lor (Int.land (i.pageIndex <<< (12 : Int)) (~~~ pageMask)) (Int.land i.byteIndex pageMask)

/-- A byte string one byte longer than a page: `pageSize` bytes of value 1
followed by one byte of value 2. -/
def onesThenTwo : List Byte := List.replicate pageSize 1 ++ [2]

/-! ## Arithmetic of offsets and slices -/

theorem pageSize_eq : pageSize = 32768 := rfl

theorem pageMask_eq : pageMask = ((32767 : Nat) : Int) := rfl

theorem getBufferIndex_natCast (c : Nat) :
    getBufferIndex (c : Int) = ⟨((c / 32768 : Nat) : Int), ((c % 32768 : Nat) : Int)⟩ := by
  unfold getBufferIndex
  rw [pageMask_eq]
  have h1 : (c : Int) >>> pagePow2 = ((c >>> 15 : Nat) : Int) := rfl
  have h2 : Int.land (c : Int) ((32767 : Nat) : Int) = ((c &&& 32767 : Nat) : Int) := rfl
  rw [h1, h2, Nat.shiftRight_eq_div_pow]
  have h3 := Nat.and_pow_two_sub_one_eq_mod c 15
  norm_num at h3
  rw [h3]

theorem index_natCast {α : Type} (xs : List α) (k : Nat) :
    index xs (k : Int) = if h : k < xs.length then Res.ok (xs.get ⟨k, h⟩) else Res.panic := by
  unfold index
  by_cases h : k < xs.length
  · simp [h, List.getElem?_eq_getElem]
  · simp [h, List.getElem?_eq_none (Nat.le_of_not_lt h)]

theorem sliceFrom_natCast {α : Type} (xs : List α) (k : Nat) :
    sliceFrom xs (k : Int) = if k ≤ xs.length then Res.ok (xs.drop k) else Res.panic := by
  simp [sliceFrom]

theorem sliceTo_natSub {α : Type} (xs : List α) (a c : Nat) :
    sliceTo xs ((a : Int) - (c : Int)) =
      if c ≤ a ∧ a - c ≤ xs.length then Res.ok (xs.take (a - c)) else Res.panic := by
  unfold sliceTo
  by_cases h : c ≤ a
  · have h1 : (a : Int) - (c : Int) = ((a - c : Nat) : Int) := by omega
    rw [h1]
    by_cases h2 : a - c ≤ xs.length
    · have h3 : ((a - c : Nat) : Int) ≤ (xs.length : Int) := by omega
      simp [h, h2]
      omega
    · have h3 : ¬ ((a - c : Nat) : Int) ≤ (xs.length : Int) := by omega
      simp [h, h2]
      omega
  · have h1 : ¬ (0 ≤ (a : Int) - (c : Int)) := by omega
    simp [h1, h]

/-- Under the invariant, the slice `getPage` returns at the cursor. -/
theorem getPage_of_inv (b : Buffer) (c L : Nat) (hc : b.pagei = c) (hL : b.lasti = L)
    (hcL : c ≤ L) (hinv : Inv b) :
    (getBufferIndex b.pagei).getPage b =
      if b.pages.length = 0 then Res.ok []
      else if h : c / 32768 < b.pages.length then
        Res.ok (((b.pages.get ⟨c / 32768, h⟩).drop (c % 32768)).take (L - c))
      else Res.panic := by
  obtain ⟨_, _, h3, h4⟩ := hinv
  rw [hc]
  unfold bufferIndex.getPage
  rw [hL, getBufferIndex_natCast, getBufferIndex_natCast]
  simp only [index_natCast]
  by_cases h0 : b.pages.length = 0
  · simp [h0]
  · simp only [h0, if_false]
    by_cases h : c / 32768 < b.pages.length
    · simp only [h, dite_true]
      have hlen : (b.pages.get ⟨c / 32768, h⟩).length = 32768 := by
        rw [h4 _ (List.get_mem _ _ _), pageSize_eq]
      simp only [sliceFrom_natCast, hlen]
      have hm : c % 32768 < 32768 := Nat.mod_lt _ (by norm_num)
      rw [if_pos (le_of_lt hm)]
      simp only
      have hm2 : L % 32768 < 32768 := Nat.mod_lt _ (by norm_num)
      by_cases hp : L / 32768 = c / 32768
      · have hp2 : ((L / 32768 : Nat) : Int) = ((c / 32768 : Nat) : Int) := by rw [hp]
        rw [if_pos hp2, sliceTo_natSub]
        have e1 : L % 32768 - c % 32768 = L - c := by omega
        have e2 : c % 32768 ≤ L % 32768 := by omega
        rw [if_pos]
        · rw [e1]
        · refine ⟨e2, ?_⟩
          rw [List.length_drop, hlen]; omega
      · have hp2 : ¬ ((L / 32768 : Nat) : Int) = ((c / 32768 : Nat) : Int) := by
          intro h; apply hp; exact_mod_cast h
        rw [if_neg hp2]
        congr 1
        rw [List.take_of_length_le]
        rw [List.length_drop, hlen]
        have : c / 32768 < L / 32768 := by
          have := Nat.div_le_div_right (c := 32768) hcL
          omega
        omega
    · simp [h]

/-! ## The `copy` builtin -/

theorem copyAt_length (dst src : List Byte) (k m : Nat) (h1 : k + m ≤ dst.length)
    (h2 : m ≤ src.length) : (copyAt dst k src m).length = dst.length := by
  simp [copyAt, List.length_append, List.length_take, List.length_drop]
  omega

theorem copyAt_getElem?_lt (dst src : List Byte) (k m j : Nat) (hk : k ≤ dst.length)
    (hj : j < k) : (copyAt dst k src m)[j]? = dst[j]? := by
  unfold copyAt
  rw [List.append_assoc, List.getElem?_append_left (by simp; omega)]
  rw [List.getElem?_take_of_lt hj]

theorem copyAt_getElem?_mid (dst src : List Byte) (k m j : Nat) (hk : k ≤ dst.length)
    (hm : m ≤ src.length) (h1 : k ≤ j) (h2 : j < k + m) :
    (copyAt dst k src m)[j]? = src[j - k]? := by
  unfold copyAt
  rw [List.append_assoc, List.getElem?_append_right (by simp; omega)]
  have e : (List.take k dst).length = k := by simp; omega
  rw [e, List.getElem?_append_left (by simp; omega)]
  rw [List.getElem?_take_of_lt (by omega)]

theorem copyAt_getElem?_ge (dst src : List Byte) (k m j : Nat) (hk : k + m ≤ dst.length)
    (hm : m ≤ src.length) (h1 : k + m ≤ j) :
    (copyAt dst k src m)[j]? = dst[j]? := by
  unfold copyAt
  have e : (List.take k dst ++ List.take m src).length = k + m := by
    simp [List.length_append]; omega
  rw [List.getElem?_append_right (by rw [e]; exact h1), e, List.getElem?_drop]
  congr 1
  omega

theorem copyAt_zero (dst src : List Byte) (k : Nat) : copyAt dst k src 0 = dst := by
  simp [copyAt]

theorem byteAt_natCast (b : Buffer) (k : Nat) (h : k / 32768 < b.pages.length) :
    b.byteAt (k : Int) = (b.pages.get ⟨k / 32768, h⟩)[k % 32768]? := by
  unfold Buffer.byteAt
  rw [getBufferIndex_natCast]
  simp only [Int.toNat_ofNat, List.getElem?_eq_getElem h, List.get_eq_getElem]

/-! ## `Read` -/

/-- What the slice returned by `getPage` at the cursor holds. -/
theorem getPage_props (b : Buffer) (pg : List Byte) (hinv : Inv b)
    (h : (getBufferIndex b.pagei).getPage b = Res.ok pg) :
    ∃ c L : Nat, b.pagei = c ∧ b.lasti = L ∧ c ≤ L ∧ pg.length ≤ L - c ∧
      (pg.length = 0 → c = L) ∧
      ∀ i, i < pg.length → pg[i]? = b.byteAt ((c + i : Nat) : Int) := by
  obtain ⟨c, hc⟩ := Int.eq_ofNat_of_zero_le hinv.1
  obtain ⟨L, hL⟩ := Int.eq_ofNat_of_zero_le (le_trans hinv.1 hinv.2.1)
  have hcL : c ≤ L := by have := hinv.2.1; omega
  refine ⟨c, L, hc, hL, hcL, ?_⟩
  rw [getPage_of_inv b c L hc hL hcL hinv] at h
  by_cases h0 : b.pages.length = 0
  · rw [if_pos h0] at h
    injection h with h
    subst h
    have h3 := hinv.2.2.1
    rw [h0, hL] at h3
    simp at h3
    refine ⟨by simp, fun _ => by omega, fun i hi => by simp at hi⟩
  · rw [if_neg h0] at h
    by_cases hp : c / 32768 < b.pages.length
    · rw [dif_pos hp] at h
      injection h with h
      have hlen : (b.pages.get ⟨c / 32768, hp⟩).length = 32768 := by
        rw [hinv.2.2.2 _ (List.get_mem _ _ _), pageSize_eq]
      have hm : c % 32768 < 32768 := Nat.mod_lt _ (by norm_num)
      have hpl : pg.length = min (L - c) (32768 - c % 32768) := by
        rw [← h, List.length_take, List.length_drop, hlen]
      refine ⟨by omega, fun h0 => by omega, fun i hi => ?_⟩
      have e1 : (c + i) / 32768 = c / 32768 := by omega
      have e2 : (c + i) % 32768 = c % 32768 + i := by omega
      have hp2 : (c + i) / 32768 < b.pages.length := by omega
      rw [byteAt_natCast b (c + i) hp2]
      simp only [e1, e2]
      rw [← h, List.getElem?_take_of_lt (by omega), List.getElem?_drop]
    · rw [dif_neg hp] at h
      exact absurd h (by simp)

/-- The invariant of the `Read` loop, as a postcondition of `readLoop`. -/
theorem readLoop_spec : ∀ (fuel : Nat) (b : Buffer) (p : List Byte) (n : Nat)
    (b' : Buffer) (p' : List Byte) (n' : Nat) (err : Option Err),
    Inv b → n ≤ p.length → readLoop fuel b p n = Res.ok (b', p', n', err) →
    b'.pages = b.pages ∧ b'.lasti = b.lasti ∧ n ≤ n' ∧ n' ≤ p.length ∧
    b'.pagei = b.pagei + ((n' - n : Nat) : Int) ∧
    ((n' - n : Nat) : Int) = min ((p.length - n : Nat) : Int) (b.lasti - b.pagei) ∧
    p'.length = p.length ∧
    (∀ j, j < n → p'[j]? = p[j]?) ∧
    (∀ j, n ≤ j → j < n' → p'[j]? = b.byteAt (b.pagei + ((j - n : Nat) : Int))) ∧
    (∀ j, n' ≤ j → p'[j]? = p[j]?) ∧
    err = (if n' < p.length then some Err.EOF else none) := by
  intro fuel
  induction fuel with
  | zero =>
    intro b p n b' p' n' err hinv hn h
    rw [readLoop] at h
    split at h
    · injection h with h
      injection h with h1 h
      injection h with h2 h
      injection h with h3 h4
      subst h1 h2 h3 h4
      have := hinv.2.1
      refine ⟨rfl, rfl, le_refl _, hn, by simp, ?_, rfl, fun _ _ => rfl, fun j h1 h2 => by omega,
        fun _ _ => rfl, ?_⟩
      · have e : p.length - n = 0 := by omega
        rw [e]; simp; omega
      · rw [if_neg (by omega)]
    · exact absurd h (by simp)
  | succ fuel ih =>
    intro b p n b' p' n' err hinv hn h
    rw [readLoop] at h
    split at h
    · injection h with h
      injection h with h1 h
      injection h with h2 h
      injection h with h3 h4
      subst h1 h2 h3 h4
      have := hinv.2.1
      refine ⟨rfl, rfl, le_refl _, hn, by simp, ?_, rfl, fun _ _ => rfl, fun j h1 h2 => by omega,
        fun _ _ => rfl, ?_⟩
      · have e : p.length - n = 0 := by omega
        rw [e]; simp; omega
      · rw [if_neg (by omega)]
    · rename_i hlt
      cases hg : (getBufferIndex b.pagei).getPage b with
      | panic => rw [hg] at h; exact absurd h (by simp)
      | timeout => rw [hg] at h; exact absurd h (by simp)
      | ok pg =>
        rw [hg] at h
        simp only at h
        obtain ⟨c, L, hc, hL, hcL, hpl, hp0, hbytes⟩ := getPage_props b pg hinv hg
        by_cases hz : pg.length = 0
        · rw [if_pos hz] at h
          injection h with h
          injection h with h1 h
          injection h with h2 h
          injection h with h3 h4
          have hcL2 := hp0 hz
          have hm : min (p.length - n) pg.length = 0 := by omega
          rw [hm] at h1 h2 h3
          rw [copyAt_zero] at h2
          subst h1 h2 h3 h4
          refine ⟨rfl, rfl, le_refl _, hn, by simp, ?_, rfl, fun _ _ => rfl,
            fun j h1 h2 => by omega, fun _ _ => rfl, ?_⟩
          · simp only [Nat.add_zero, Nat.sub_self, Nat.cast_zero]
            rw [hc, hL, hcL2]; simp
          · rw [if_pos (by omega)]
        · rw [if_neg hz] at h
          set m := min (p.length - n) pg.length with hm
          have hm1 : m ≤ p.length - n := by omega
          have hm2 : m ≤ pg.length := by omega
          have hm3 : 0 < m := by omega
          have hinv1 : Inv ⟨b.pages, b.pagei + (m : Int), b.lasti⟩ := by
            obtain ⟨i1, i2, i3, i4⟩ := hinv
            refine ⟨?_, ?_, i3, i4⟩
            · show 0 ≤ b.pagei + (m : Int); omega
            · show b.pagei + (m : Int) ≤ b.lasti; omega
          have hlen1 : (copyAt p n pg m).length = p.length :=
            copyAt_length p pg n m (by omega) hm2
          have hn1 : n + m ≤ (copyAt p n pg m).length := by rw [hlen1]; omega
          obtain ⟨r1, r2, r3, r4, r5, r6, r7, r8, r9, r10, r11⟩ :=
            ih _ _ _ _ _ _ _ hinv1 hn1 h
          rw [hlen1] at r4 r6 r7 r11
          simp only at r1 r2 r5 r6
          refine ⟨r1, r2, by omega, r4, ?_, ?_, r7, ?_, ?_, ?_, r11⟩
          · rw [r5]; omega
          · rw [hc, hL] at r6 ⊢
            omega
          · intro j hj
            rw [r8 j (by omega), copyAt_getElem?_lt p pg n m j hn hj]
          · intro j hj1 hj2
            by_cases hj3 : j < n + m
            · rw [r8 j hj3, copyAt_getElem?_mid p pg n m j hn hm2 hj1 hj3,
                hbytes (j - n) (by omega), hc]
              congr 1
            · rw [r9 j (by omega) hj2]
              have e : b.pagei + (m : Int) + ((j - (n + m) : Nat) : Int)
                  = b.pagei + ((j - n : Nat) : Int) := by omega
              simp only [e]
              rfl
          · intro j hj
            rw [r10 j hj, copyAt_getElem?_ge p pg n m j (by omega) hm2 (by omega)]

/-! ## `Write` -/

theorem modify_append_singleton {α : Type} (f : α → α) (l : List α) (a : α) :
    List.modify f l.length (l ++ [a]) = l ++ [f a] := by
  induction l with
  | nil => rfl
  | cons x xs ih => simp [List.modify_succ_cons, ih]

/-- One iteration of the `Write` loop under the invariant, with the cursor as a
natural number. -/
theorem writeBody_of_inv (b : Buffer) (c : Nat) (hc : b.pagei = c) (hinv : Inv b)
    (s : List Byte) :
    writeBody b s =
      if c = 0 then
        Res.ok (⟨b.pages ++ [copyAt newPage 0 s (min 32768 s.length)],
          b.pagei + ((min 32768 s.length : Nat) : Int),
          if b.pagei + ((min 32768 s.length : Nat) : Int) > b.lasti
            then b.pagei + ((min 32768 s.length : Nat) : Int) else b.lasti⟩,
          min 32768 s.length)
      else if c / 32768 < b.pages.length then
        Res.ok (⟨List.modify (fun pagePtr =>
              copyAt pagePtr (c % 32768) s (min (32768 - c % 32768) s.length)) (c / 32768) b.pages,
          b.pagei + ((min (32768 - c % 32768) s.length : Nat) : Int),
          if b.pagei + ((min (32768 - c % 32768) s.length : Nat) : Int) > b.lasti
            then b.pagei + ((min (32768 - c % 32768) s.length : Nat) : Int) else b.lasti⟩,
          min (32768 - c % 32768) s.length)
      else Res.panic := by
  unfold writeBody writeWindow
  rw [hc, getBufferIndex_natCast]
  by_cases h0 : c = 0
  · subst h0
    simp only [Nat.cast_zero, gt_iff_lt, lt_self_iff_false, if_false, if_true, pageSize_eq]
    rw [modify_append_singleton]
  · have hpos : (c : Int) > 0 := by omega
    rw [if_pos hpos, if_neg h0]
    simp only [index_natCast]
    by_cases hp : c / 32768 < b.pages.length
    · have hlen : (b.pages.get ⟨c / 32768, hp⟩).length = 32768 := by
        rw [hinv.2.2.2 _ (List.get_mem _ _ _), pageSize_eq]
      have hm : c % 32768 < 32768 := Nat.mod_lt _ (by norm_num)
      simp only [hp, dite_true, if_true, sliceFrom_natCast, hlen]
      rw [if_pos (le_of_lt hm)]
      have hne : ¬ (32768 - c % 32768 = 0) := by omega
      simp only [List.length_drop, hlen, hne, if_false, Int.toNat_ofNat]
    · simp only [hp, dite_false, if_false]

theorem forall_mem_modify {α : Type} (P : α → Prop) (f : α → α) (hf : ∀ x, P x → P (f x)) :
    ∀ (l : List α) (n : Nat), (∀ x ∈ l, P x) → ∀ x ∈ List.modify f n l, P x := by
  intro l
  induction l with
  | nil => intro n h x hx; simp at hx
  | cons a as ih =>
    intro n h x hx
    cases n with
    | zero =>
      simp only [List.modify_zero_cons, List.mem_cons] at hx
      rcases hx with hx | hx
      · rw [hx]; exact hf a (h a (List.mem_cons_self _ _))
      · exact h x (List.mem_cons_of_mem _ hx)
    | succ n =>
      simp only [List.modify_succ_cons, List.mem_cons] at hx
      rcases hx with hx | hx
      · rw [hx]; exact h a (List.mem_cons_self _ _)
      · exact ih n (fun y hy => h y (List.mem_cons_of_mem _ hy)) x hx

theorem ite_gt_eq_max (a c : Int) : (if a > c then a else c) = max c a := by
  split_ifs <;> omega

theorem newPage_length : newPage.length = pageSize := by
  simp [newPage]

/-- One iteration of the `Write` loop keeps the invariant, copies at least one
byte and moves the cursor by the number of bytes copied. -/
theorem writeBody_props (b : Buffer) (s : List Byte) (b1 : Buffer) (m : Nat)
    (hinv : Inv b) (hs : 0 < s.length) (h : writeBody b s = Res.ok (b1, m)) :
    Inv b1 ∧ 0 < m ∧ m ≤ s.length ∧ b1.pagei = b.pagei + (m : Int) ∧
      b1.lasti = max b.lasti (b.pagei + (m : Int)) ∧ b.pages.length ≤ b1.pages.length := by
  obtain ⟨c, hc⟩ := Int.eq_ofNat_of_zero_le hinv.1
  rw [writeBody_of_inv b c hc hinv s] at h
  obtain ⟨i1, i2, i3, i4⟩ := hinv
  have hP := pageSize_eq
  by_cases h0 : c = 0
  · rw [if_pos h0] at h
    injection h with h
    injection h with h1 h2
    subst h1 h2
    refine ⟨⟨?_, ?_, ?_, ?_⟩, by omega, by omega, rfl, ?_, by simp⟩
    · show 0 ≤ b.pagei + _; omega
    · show b.pagei + _ ≤ (if _ then _ else _); rw [ite_gt_eq_max]; omega
    · show (if _ then _ else _) ≤ ((b.pages ++ [_]).length : Int) * _
      rw [List.length_append, List.length_singleton, hP]
      rw [hP] at i3
      rw [ite_gt_eq_max]
      push_cast
      omega
    · intro pg hpg
      simp only [List.mem_append, List.mem_singleton] at hpg
      rcases hpg with hpg | hpg
      · exact i4 pg hpg
      · rw [hpg, copyAt_length _ _ _ _ (by rw [newPage_length, hP]; omega) (by omega),
          newPage_length]
    · show (if _ then _ else _) = _
      rw [ite_gt_eq_max]
  · rw [if_neg h0] at h
    by_cases hp : c / 32768 < b.pages.length
    · rw [if_pos hp] at h
      injection h with h
      injection h with h1 h2
      subst h1 h2
      have hm : c % 32768 < 32768 := Nat.mod_lt _ (by norm_num)
      refine ⟨⟨?_, ?_, ?_, ?_⟩, by omega, by omega, rfl, ?_, by simp⟩
      · show 0 ≤ b.pagei + _; omega
      · show b.pagei + _ ≤ (if _ then _ else _); rw [ite_gt_eq_max]; omega
      · show (if _ then _ else _) ≤ ((List.modify _ _ _).length : Int) * _
        rw [List.length_modify, hP]
        rw [hP] at i3
        rw [ite_gt_eq_max, hc]
        push_cast
        omega
      · refine forall_mem_modify (fun pg : List Byte => pg.length = pageSize) _ ?_ _ _ i4
        intro pg hpg
        show (copyAt _ _ _ _).length = _
        rw [copyAt_length _ _ _ _ (by rw [hpg, hP]; omega) (by omega), hpg]
      · show (if _ then _ else _) = _
        rw [ite_gt_eq_max]
    · rw [if_neg hp] at h
      exact absurd h (by simp)

/-- Postcondition of the `Write` loop. -/
theorem writeLoop_spec : ∀ (fuel : Nat) (b : Buffer) (p : List Byte) (n : Nat)
    (b' : Buffer) (n' : Nat) (err : Option Err),
    Inv b → n ≤ p.length → writeLoop fuel b p n = Res.ok (b', n', err) →
    Inv b' ∧ n' = p.length ∧ err = none ∧
      b'.pagei = b.pagei + ((p.length - n : Nat) : Int) ∧
      b'.lasti = max b.lasti b'.pagei ∧ b.pages.length ≤ b'.pages.length := by
  intro fuel
  induction fuel with
  | zero =>
    intro b p n b' n' err hinv hn h
    rw [writeLoop] at h
    split at h
    · injection h with h
      injection h with h1 h
      injection h with h2 h3
      subst h1 h2 h3
      have := hinv.2.1
      refine ⟨hinv, by omega, rfl, ?_, by omega, le_refl _⟩
      have e : p.length - n = 0 := by omega
      rw [e]; simp
    · exact absurd h (by simp)
  | succ fuel ih =>
    intro b p n b' n' err hinv hn h
    rw [writeLoop] at h
    split at h
    · injection h with h
      injection h with h1 h
      injection h with h2 h3
      subst h1 h2 h3
      have := hinv.2.1
      refine ⟨hinv, by omega, rfl, ?_, by omega, le_refl _⟩
      have e : p.length - n = 0 := by omega
      rw [e]; simp
    · rename_i hlt
      cases hw : writeBody b (p.drop n) with
      | panic => rw [hw] at h; exact absurd h (by simp)
      | timeout => rw [hw] at h; exact absurd h (by simp)
      | ok r =>
        obtain ⟨b1, m⟩ := r
        rw [hw] at h
        simp only at h
        have hs : 0 < (p.drop n).length := by rw [List.length_drop]; omega
        obtain ⟨w1, w2, w3, w4, w5, w6⟩ := writeBody_props b _ b1 m hinv hs hw
        rw [List.length_drop] at w3
        obtain ⟨r1, r2, r3, r4, r5, r6⟩ := ih b1 p (n + m) b' n' err w1 (by omega) h
        have := hinv.2.1
        refine ⟨r1, r2, r3, ?_, ?_, by omega⟩
        · rw [r4, w4]; omega
        · rw [r5, w5]; rw [r4, w4]; omega

/-! ## `Seek` and the reachable states -/

theorem wrapInt_of_range (x : Int) (h1 : -2 ^ 63 ≤ x) (h2 : x < 2 ^ 63) : wrapInt x = x := by
  unfold wrapInt
  omega

theorem wrapInt_range (x : Int) : -2 ^ 63 ≤ wrapInt x ∧ wrapInt x < 2 ^ 63 := by
  unfold wrapInt
  omega

theorem deferLogData_ok {α : Type} (r : Res (Buffer × α)) (x : Buffer × α)
    (h : deferLogData r = Res.ok x) : r = Res.ok x := by
  unfold deferLogData at h
  split at h
  · split at h
    · exact h
    · exact absurd h (by simp)
    · exact absurd h (by simp)
  · rename_i hr
    cases r with
    | ok a => exact absurd rfl (hr a.1 a.2)
    | panic => exact absurd h (by simp)
    | timeout => exact absurd h (by simp)

theorem setPageI_inv (b : Buffer) (o : Int) (hinv : Inv b) : Inv (b.setPageI o).1 := by
  unfold Buffer.setPageI
  split
  · exact hinv
  · rename_i h
    obtain ⟨i1, i2, i3, i4⟩ := hinv
    refine ⟨?_, ?_, i3, i4⟩
    · show 0 ≤ o; omega
    · show o ≤ b.lasti; omega

theorem Seek_inv (b : Buffer) (offset whence : Int) (hinv : Inv b) :
    Inv (b.Seek offset whence).1 := by
  unfold Buffer.Seek
  simp only
  split_ifs
  · exact setPageI_inv b _ hinv
  · exact setPageI_inv b _ hinv
  · exact setPageI_inv b _ hinv
  · exact hinv

theorem Read_inv (b : Buffer) (p : List Byte) (r : Buffer × List Byte × Nat × Option Err)
    (hinv : Inv b) (h : b.Read p = Res.ok r) : Inv r.1 := by
  obtain ⟨b', p', n', err⟩ := r
  have h1 := deferLogData_ok _ _ h
  obtain ⟨r1, r2, r3, r4, r5, r6, -⟩ := readLoop_spec _ b p 0 b' p' n' err hinv (Nat.zero_le _) h1
  obtain ⟨i1, i2, i3, i4⟩ := hinv
  refine ⟨?_, ?_, ?_, ?_⟩
  · show 0 ≤ b'.pagei; omega
  · show b'.pagei ≤ b'.lasti; omega
  · show b'.lasti ≤ (b'.pages.length : Int) * pageSize; rw [r1, r2]; exact i3
  · show ∀ pg ∈ b'.pages, _; rw [r1]; exact i4

theorem Write_inv (b : Buffer) (p : List Byte) (r : Buffer × Nat × Option Err)
    (hinv : Inv b) (h : b.Write p = Res.ok r) : Inv r.1 := by
  obtain ⟨b', n', err⟩ := r
  have h1 := deferLogData_ok _ _ h
  exact (writeLoop_spec _ b p 0 b' n' err hinv (Nat.zero_le _) h1).1

theorem Inv_new : Inv Buffer.new := by
  refine ⟨le_refl _, le_refl _, ?_, ?_⟩
  · simp [Buffer.new]
  · intro pg hpg; simp [Buffer.new] at hpg

theorem Reachable.inv {b : Buffer} (h : Reachable b) : Inv b := by
  induction h with
  | new => exact Inv_new
  | read p _ hr ih => exact Read_inv _ p _ ih hr
  | write p _ hw ih => exact Write_inv _ p _ ih hw
  | seek offset whence _ ih => exact Seek_inv _ offset whence ih

/-! ## When the calls return -/

/-- The slice `getPage` returns at a page start `i * pageSize`. -/
theorem getPage_pageStart (b : Buffer) (i : Nat) (hinv : Inv b) (hi : i < b.pages.length)
    (hL : (i : Int) * pageSize ≤ b.lasti) :
    ∃ pg, (getBufferIndex ((i : Int) * pageSize)).getPage b = Res.ok pg := by
  obtain ⟨L, hL1⟩ := Int.eq_ofNat_of_zero_le (le_trans hinv.1 hinv.2.1)
  have hP := pageSize_eq
  have hiL : i * 32768 ≤ L := by rw [hL1, hP] at hL; omega
  have hinv0 : Inv ⟨b.pages, ((i * 32768 : Nat) : Int), b.lasti⟩ := by
    obtain ⟨i1, i2, i3, i4⟩ := hinv
    refine ⟨?_, ?_, i3, i4⟩
    · show 0 ≤ ((i * 32768 : Nat) : Int); omega
    · show ((i * 32768 : Nat) : Int) ≤ b.lasti; omega
  have h := getPage_of_inv ⟨b.pages, ((i * 32768 : Nat) : Int), b.lasti⟩ (i * 32768) L rfl hL1
    hiL hinv0
  have e : (i : Int) * pageSize = ((i * 32768 : Nat) : Int) := by rw [hP]; push_cast; rfl
  rw [e]
  have hd : i * 32768 / 32768 = i := by omega
  have h0 : ¬ b.pages.length = 0 := by omega
  simp only [hd, h0, hi, if_false, dite_true] at h
  exact ⟨_, h⟩

theorem logDataLoop_ok (b : Buffer) (hinv : Inv b) :
    ∀ l : List Nat, (∀ i ∈ l, i < b.pages.length ∧ (i : Int) * pageSize ≤ b.lasti) →
      logDataLoop b l = Res.ok () := by
  intro l
  induction l with
  | nil => intro _; rfl
  | cons i l ih =>
    intro h
    obtain ⟨h1, h2⟩ := h i (List.mem_cons_self _ _)
    obtain ⟨pg, hpg⟩ := getPage_pageStart b i hinv h1 h2
    have hs : logDataStep b i = Res.ok () := by
      unfold logDataStep
      rw [hpg]
      simp only [h2, if_true]
    rw [logDataLoop, hs]
    exact ih (fun j hj => h j (List.mem_cons_of_mem _ hj))

/-- The deferred `logData` returns when all pages but the last lie below
`lasti`. -/
theorem logData_ok (b : Buffer) (hinv : Inv b)
    (h : (b.pages.length : Int) * pageSize ≤ b.lasti + pageSize) : b.logData = Res.ok () := by
  unfold Buffer.logData
  have h0 : ¬ b.lasti < 0 := by have := hinv.1; have := hinv.2.1; omega
  rw [if_neg h0]
  apply logDataLoop_ok b hinv
  intro i hi
  rw [List.mem_range] at hi
  refine ⟨hi, ?_⟩
  have hP := pageSize_eq
  rw [hP] at h ⊢
  push_cast at h ⊢
  omega

theorem readLoop_done (fuel : Nat) (b : Buffer) (p : List Byte) (n : Nat) (h : p.length ≤ n) :
    readLoop fuel b p n = Res.ok (b, p, n, none) := by
  cases fuel <;> simp [readLoop, h]

theorem writeLoop_done (fuel : Nat) (b : Buffer) (p : List Byte) (n : Nat) (h : p.length ≤ n) :
    writeLoop fuel b p n = Res.ok (b, n, none) := by
  cases fuel <;> simp [writeLoop, h]

/-- The `Read` loop returns, with the fuel `Read` gives it, unless it reaches
the end of the data on a page boundary that has no page. -/
theorem readLoop_ok : ∀ (fuel : Nat) (b : Buffer) (p : List Byte) (n : Nat),
    Inv b → n ≤ p.length → p.length - n ≤ fuel →
    (b.pages.length = 0 ∨ b.lasti < (b.pages.length : Int) * pageSize ∨
      ((p.length - n : Nat) : Int) ≤ b.lasti - b.pagei) →
    ∃ r, readLoop fuel b p n = Res.ok r := by
  intro fuel
  induction fuel with
  | zero =>
    intro b p n _ _ hf _
    exact ⟨_, readLoop_done 0 b p n (by omega)⟩
  | succ fuel ih =>
    intro b p n hinv hn hf hsafe
    by_cases hle : p.length ≤ n
    · exact ⟨_, readLoop_done _ b p n hle⟩
    · obtain ⟨c, hc⟩ := Int.eq_ofNat_of_zero_le hinv.1
      obtain ⟨L, hL⟩ := Int.eq_ofNat_of_zero_le (le_trans hinv.1 hinv.2.1)
      have hcL : c ≤ L := by have := hinv.2.1; omega
      have hP := pageSize_eq
      rw [readLoop, if_neg hle, getPage_of_inv b c L hc hL hcL hinv]
      by_cases h0 : b.pages.length = 0
      · simp [h0]
      · rw [if_neg h0]
        have hp : c / 32768 < b.pages.length := by
          have i3 := hinv.2.2.1
          rw [hP] at i3 hsafe
          rcases hsafe with h | h | h
          · exact absurd h h0
          · omega
          · omega
        rw [dif_pos hp]
        simp only
        split
        · exact ⟨_, rfl⟩
        · rename_i hz
          have hpl : (((b.pages.get ⟨c / 32768, hp⟩).drop (c % 32768)).take (L - c)).length
              ≤ L - c := by
            rw [List.length_take]; omega
          apply ih
          · obtain ⟨i1, i2, i3, i4⟩ := hinv
            refine ⟨?_, ?_, i3, i4⟩
            · show 0 ≤ b.pagei + _; omega
            · show b.pagei + _ ≤ b.lasti; omega
          · rw [copyAt_length _ _ _ _ (by omega) (by omega)]; omega
          · rw [copyAt_length _ _ _ _ (by omega) (by omega)]; omega
          · rw [copyAt_length _ _ _ _ (by omega) (by omega)]
            rcases hsafe with h | h | h
            · exact absurd h h0
            · right; left; exact h
            · right; right
              show _ ≤ b.lasti - (b.pagei + _)
              omega

/-- A `Write` that one iteration of its loop completes. -/
theorem Write_of_writeBody (b : Buffer) (s : List Byte) (b1 : Buffer) (hs : 0 < s.length)
    (h : writeBody b s = Res.ok (b1, s.length)) (hl : b1.logData = Res.ok ()) :
    b.Write s = Res.ok (b1, s.length, none) := by
  unfold Buffer.Write
  obtain ⟨k, hk⟩ : ∃ k, s.length = k + 1 := ⟨s.length - 1, by omega⟩
  have e : writeLoop s.length b s 0 = Res.ok (b1, s.length, none) := by
    rw [hk, writeLoop, if_neg (by omega), List.drop_zero, h, ← hk]
    simp only
    rw [writeLoop_done _ _ _ _ (by omega), Nat.zero_add]
  rw [e]
  simp only [deferLogData, hl]

theorem Write_nil (b : Buffer) (hl : b.logData = Res.ok ()) :
    b.Write [] = Res.ok (b, 0, none) := by
  unfold Buffer.Write
  simp only [List.length_nil, writeLoop, le_refl, if_true, deferLogData, hl]

theorem readLoop_inv (fuel : Nat) (b : Buffer) (p : List Byte) (n : Nat) (b' : Buffer)
    (p' : List Byte) (n' : Nat) (err : Option Err) (hinv : Inv b) (hn : n ≤ p.length)
    (h : readLoop fuel b p n = Res.ok (b', p', n', err)) : Inv b' := by
  obtain ⟨r1, r2, r3, r4, r5, r6, -⟩ := readLoop_spec _ b p n b' p' n' err hinv hn h
  obtain ⟨i1, i2, i3, i4⟩ := hinv
  refine ⟨by omega, by omega, ?_, ?_⟩
  · rw [r1, r2]; exact i3
  · rw [r1]; exact i4

/-- The call `Read` returns unless it reaches the end of the data on a page boundary that
has no page, or the deferred `logData` panics. -/
theorem Read_ok (b : Buffer) (p : List Byte) (hinv : Inv b)
    (hsafe : b.pages.length = 0 ∨ b.lasti < (b.pages.length : Int) * pageSize ∨
      (p.length : Int) ≤ b.lasti - b.pagei)
    (hl : (b.pages.length : Int) * pageSize ≤ b.lasti + pageSize) :
    ∃ r, b.Read p = Res.ok r := by
  obtain ⟨r, hr⟩ := readLoop_ok p.length b p 0 hinv (Nat.zero_le _) (by omega)
    (by simpa using hsafe)
  obtain ⟨b', p', n', err⟩ := r
  obtain ⟨r1, r2, -⟩ := readLoop_spec _ b p 0 b' p' n' err hinv (Nat.zero_le _) hr
  have hinv' : Inv b' := readLoop_inv _ b p 0 b' p' n' err hinv (Nat.zero_le _) hr
  have hl' : b'.logData = Res.ok () := logData_ok b' hinv' (by rw [r1, r2]; exact hl)
  refine ⟨(b', p', n', err), ?_⟩
  unfold Buffer.Read
  rw [hr]
  simp only [deferLogData, hl']

/-- Postcondition of `Read` on a state that satisfies the invariant. -/
theorem Read_post (b : Buffer) (p : List Byte) (b' : Buffer) (p' : List Byte) (n : Nat)
    (err : Option Err) (hinv : Inv b) (h : b.Read p = Res.ok (b', p', n, err)) :
    (n : Int) = min (p.length : Int) (b.lasti - b.pagei) ∧
    p'.length = p.length ∧
    (∀ j, j < n → p'[j]? = b.byteAt (b.pagei + (j : Int))) ∧
    (∀ j, n ≤ j → p'[j]? = p[j]?) ∧
    b'.pagei = b.pagei + (n : Int) ∧ b'.lasti = b.lasti ∧ b'.pages = b.pages ∧
    err = (if n < p.length then some Err.EOF else none) := by
  have h1 := deferLogData_ok _ _ h
  obtain ⟨r1, r2, r3, r4, r5, r6, r7, r8, r9, r10, r11⟩ :=
    readLoop_spec _ b p 0 b' p' n err hinv (Nat.zero_le _) h1
  simp only [Nat.sub_zero] at r5 r6 r9
  exact ⟨r6, r7, fun j hj => r9 j (Nat.zero_le _) hj, r10, r5, r2, r1, r11⟩

theorem Seek_invalid_whence (b : Buffer) (offset whence : Int) (h1 : whence ≠ SeekStart)
    (h2 : whence ≠ SeekCurrent) (h3 : whence ≠ SeekEnd) :
    b.Seek offset whence = (b, 0, some Err.errInvalidWhence) := by
  unfold Buffer.Seek
  simp only [h1, h2, h3, if_false]

/-! ## Buffers of a single page -/

theorem dataBufAt_nil : dataBufAt [] 0 = Buffer.new := rfl

theorem copyAt_page (d s : List Byte) (P : Nat) :
    copyAt (d ++ List.replicate (P - d.length) 0) d.length s s.length
      = (d ++ s) ++ List.replicate (P - (d ++ s).length) 0 := by
  unfold copyAt
  rw [List.take_left' rfl, List.take_length, List.drop_append_eq_append_drop]
  have e1 : d.length + s.length - d.length = s.length := by omega
  have e2 : List.drop (d.length + s.length) d = [] := List.drop_eq_nil_of_le (by omega)
  rw [e1, e2, List.drop_replicate, List.length_append, List.nil_append, Nat.sub_sub]

theorem dataBufAt_inv (d : List Byte) (k : Nat) (hd : d.length ≤ 32768) (hk : k ≤ d.length) :
    Inv (dataBufAt d k) := by
  have hP := pageSize_eq
  unfold dataBufAt
  refine ⟨?_, ?_, ?_, ?_⟩
  · show (0 : Int) ≤ (k : Int); omega
  · show (k : Int) ≤ (d.length : Int); omega
  · show (d.length : Int) ≤ ((if d.length = 0 then [] else [_] : List Page).length : Int) * _
    split
    · rename_i h0; rw [h0]; simp
    · simp [hP]; omega
  · intro pg hpg
    simp only at hpg
    split at hpg
    · simp at hpg
    · simp only [List.mem_singleton] at hpg
      rw [hpg, List.length_append, List.length_replicate, hP]; omega

theorem dataBufAt_logData (d : List Byte) (k : Nat) (hd : d.length ≤ 32768) (hk : k ≤ d.length) :
    (dataBufAt d k).logData = Res.ok () := by
  apply logData_ok _ (dataBufAt_inv d k hd hk)
  unfold dataBufAt
  show ((if d.length = 0 then [] else [_] : List Page).length : Int) * _ ≤ (d.length : Int) + _
  split
  · simp; omega
  · simp

theorem dataBufAt_of_pos (d : List Byte) (k : Nat) (h : ¬ d.length = 0) :
    dataBufAt d k = ⟨[d ++ List.replicate (pageSize - d.length) 0], k, d.length⟩ := by
  simp only [dataBufAt, h, if_false]

/-- The call `Write` on a single-page buffer with the cursor at the end, when the source
fits in the page. -/
theorem Write_dataBufAt (d s : List Byte) (h : d.length + s.length ≤ 32768) :
    (dataBufAt d d.length).Write s
      = Res.ok (dataBufAt (d ++ s) (d ++ s).length, s.length, none) := by
  have hP := pageSize_eq
  by_cases hs : s.length = 0
  · have e : s = [] := List.length_eq_zero.mp hs
    subst e
    rw [List.append_nil]
    exact Write_nil _ (dataBufAt_logData d _ (by omega) (le_refl _))
  · have hl := dataBufAt_logData (d ++ s) (d ++ s).length (by simp; omega) (le_refl _)
    have hs' : 0 < s.length := by omega
    have hd' : d.length ≤ 32768 := by omega
    have hinv := dataBufAt_inv d d.length hd' (le_refl _)
    refine Write_of_writeBody _ s _ hs' ?_ hl
    rw [writeBody_of_inv _ d.length rfl hinv]
    have hds : ¬ (d ++ s).length = 0 := by rw [List.length_append]; omega
    have hs2 : s ≠ [] := fun e => hs (by rw [e]; rfl)
    have hpage := copyAt_page d s pageSize
    rw [dataBufAt_of_pos (d ++ s) _ hds]
    by_cases hd : d.length = 0
    · have e : d = [] := List.length_eq_zero.mp hd
      subst e
      have hm : min 32768 s.length = s.length := by omega
      simp only [List.length_nil, List.nil_append, Nat.sub_zero] at hpage
      have e3 : (newPage : List Byte) = List.replicate pageSize 0 := rfl
      simp only [List.length_nil, if_true, hm, dataBufAt, List.nil_append, e3, hpage]
      simp [hs2]
    · rw [if_neg hd, dataBufAt_of_pos d _ hd]
      have hc : d.length / 32768 = 0 := by omega
      have hc2 : d.length % 32768 = d.length := by omega
      have hm : min (32768 - d.length) s.length = s.length := by omega
      simp only [hc, hc2, hm, List.length_singleton,
        Nat.lt_one_iff, if_true, List.modify_zero_cons, List.modify_nil, hpage]
      simp

theorem writeAll_dataBufAt : ∀ (ws : List (List Byte)) (d : List Byte),
    d.length + ws.flatten.length ≤ 32768 →
    writeAll (dataBufAt d d.length) ws
      = Res.ok (dataBufAt (d ++ ws.flatten) (d ++ ws.flatten).length,
          ws.map (fun s => (s.length, none))) := by
  intro ws
  induction ws with
  | nil => intro d _; simp [writeAll]
  | cons s ss ih =>
    intro d h
    simp only [List.flatten_cons, List.length_append] at h
    rw [writeAll, Write_dataBufAt d s (by omega)]
    simp only
    rw [ih (d ++ s) (by rw [List.length_append]; omega)]
    simp

theorem Seek_start_dataBufAt (d : List Byte) (k j : Nat) (hd : d.length ≤ 32768)
    (hj : j ≤ d.length) :
    (dataBufAt d k).Seek (j : Int) SeekStart = (dataBufAt d j, (j : Int), none) := by
  unfold Buffer.Seek
  have e2 : ¬ SeekStart = SeekCurrent := by decide
  rw [wrapInt_of_range _ (by omega) (by omega)]
  simp only [e2, if_true, if_false]
  unfold Buffer.setPageI
  have hx : ¬ ((j : Int) < 0 ∨ (j : Int) > (dataBufAt d k).lasti) := by
    show ¬ ((j : Int) < 0 ∨ (j : Int) > (d.length : Int))
    omega
  simp only [hx, if_false]
  rfl

theorem byteAt_dataBufAt (d : List Byte) (k i : Nat) (hd : d.length ≤ 32768) (hi : i < d.length) :
    (dataBufAt d k).byteAt (i : Int) = d[i]? := by
  have h0 : ¬ d.length = 0 := by omega
  rw [dataBufAt_of_pos d k h0]
  have e1 : i / 32768 = 0 := by omega
  have e2 : i % 32768 = i := by omega
  rw [byteAt_natCast _ i (by simp only [List.length_singleton]; omega)]
  simp only [e1, e2, List.get_eq_getElem, List.getElem_cons_zero]
  rw [List.getElem?_append_left hi]

/-- The call `Read` on a single-page buffer. -/
theorem Read_dataBufAt (d p : List Byte) (k : Nat) (hd : d.length ≤ 32768) (hk : k ≤ d.length)
    (hsafe : d.length < 32768 ∨ k + p.length ≤ d.length) :
    (dataBufAt d k).Read p
      = Res.ok (dataBufAt d (k + min p.length (d.length - k)),
          (d.drop k).take (min p.length (d.length - k)) ++ p.drop (min p.length (d.length - k)),
          min p.length (d.length - k),
          if min p.length (d.length - k) < p.length then some Err.EOF else none) := by
  have hP := pageSize_eq
  have hinv := dataBufAt_inv d k hd hk
  have hpl : (dataBufAt d k).pages.length = if d.length = 0 then 0 else 1 := by
    unfold dataBufAt; simp only; split <;> rfl
  obtain ⟨⟨b', p', n, err⟩, hr⟩ := Read_ok (dataBufAt d k) p hinv (by
      rw [hpl, hP]
      show _ ∨ (d.length : Int) < _ ∨ _ ≤ (d.length : Int) - (k : Int)
      split
      · left; rfl
      · rcases hsafe with h | h
        · right; left; push_cast; omega
        · right; right; omega) (by
      rw [hpl, hP]
      show _ ≤ (d.length : Int) + _
      split <;> push_cast <;> omega)
  obtain ⟨r1, r2, r3, r4, r5, r6, r7, r8⟩ := Read_post _ p b' p' n err hinv hr
  have hn : n = min p.length (d.length - k) := by
    have : ((dataBufAt d k).lasti - (dataBufAt d k).pagei : Int) = (d.length : Int) - (k : Int) := rfl
    rw [this] at r1
    omega
  rw [hr]
  subst hn
  congr 2
  · -- the buffer
    cases b' with
    | mk pages pagei lasti =>
      simp only at r5 r6 r7
      subst r6 r7
      unfold dataBufAt at r5 ⊢
      simp only at r5 ⊢
      rw [r5]
      push_cast
      rfl
  · congr 1
    · -- the destination
      apply List.ext_getElem?
      intro j
      by_cases hj : j < min p.length (d.length - k)
      · rw [r3 j hj]
        have e : (dataBufAt d k).pagei + (j : Int) = ((k + j : Nat) : Int) := by
          show (k : Int) + (j : Int) = _
          push_cast; rfl
        rw [e, byteAt_dataBufAt d k (k + j) hd (by omega)]
        rw [List.getElem?_append_left (by simp; omega)]
        rw [List.getElem?_take_of_lt hj, List.getElem?_drop]
      · rw [r4 j (by omega)]
        rw [List.getElem?_append_right (by simp; omega)]
        rw [List.getElem?_drop]
        congr 1
        simp
        omega
    · congr 1

/-! ## Panics on a page boundary -/

theorem fullPage_length : fullPage.length = 32768 := by
  rw [fullPage, List.length_replicate, pageSize_eq]

theorem helloWorld_length : helloWorld.length = 13 := rfl

/-- Every single-page buffer is reachable: write the data, then seek. -/
theorem reachable_dataBufAt (d : List Byte) (k : Nat) (hd : d.length ≤ 32768)
    (hk : k ≤ d.length) : Reachable (dataBufAt d k) := by
  have h1 : Buffer.new.Write d = Res.ok (dataBufAt d d.length, d.length, none) := by
    have := Write_dataBufAt [] d (by simpa using hd)
    simpa [dataBufAt_nil] using this
  have h2 := Reachable.write d Reachable.new h1
  have h3 := Reachable.seek (k : Int) SeekStart h2
  rw [Seek_start_dataBufAt d d.length k hd hk] at h3
  exact h3

/-- The call `Read` into a non-empty destination panics when the cursor is at the end of
the data, on a page boundary behind the last page. -/
theorem Read_panic_boundary (b : Buffer) (p : List Byte) (c : Nat) (hinv : Inv b)
    (hc : b.pagei = c) (hL : b.lasti = c) (h0 : b.pages.length ≠ 0)
    (hb : b.pages.length ≤ c / 32768) (hp : 0 < p.length) : b.Read p = Res.panic := by
  unfold Buffer.Read
  obtain ⟨k, hk⟩ : ∃ k, p.length = k + 1 := ⟨p.length - 1, by omega⟩
  rw [hk, readLoop, if_neg (by omega), getPage_of_inv b c c hc hL (le_refl _) hinv, if_neg h0,
    dif_neg (by omega)]
  rfl

/-- The call `Write` of a non-empty source panics when the cursor is positive and on a
page boundary behind the last page. -/
theorem Write_panic_boundary (b : Buffer) (s : List Byte) (c : Nat) (hinv : Inv b)
    (hc : b.pagei = c) (hpos : 0 < c) (hb : b.pages.length ≤ c / 32768) (hs : 0 < s.length) :
    b.Write s = Res.panic := by
  unfold Buffer.Write
  obtain ⟨k, hk⟩ : ∃ k, s.length = k + 1 := ⟨s.length - 1, by omega⟩
  rw [hk, writeLoop, if_neg (by omega), writeBody_of_inv b c hc hinv, if_neg (by omega),
    if_neg (by omega)]
  rfl

/-- The call `Read` of all the data of a single-page buffer from offset 0. -/
theorem Read_dataBufAt_all (d dst : List Byte) (hd : d.length ≤ 32768)
    (hdst : dst.length = d.length) :
    (dataBufAt d 0).Read dst = Res.ok (dataBufAt d d.length, d, d.length, none) := by
  have h := Read_dataBufAt d dst 0 hd (Nat.zero_le _) (Or.inr (by omega))
  have e : min dst.length (d.length - 0) = d.length := by omega
  rw [e, List.drop_zero, List.take_length, List.drop_eq_nil_of_le (by omega), List.append_nil,
    Nat.zero_add, if_neg (by omega)] at h
  exact h

theorem Write_new (d : List Byte) (hd : d.length ≤ 32768) :
    Buffer.new.Write d = Res.ok (dataBufAt d d.length, d.length, none) := by
  have h := Write_dataBufAt [] d (by rw [List.length_nil]; omega)
  rw [List.nil_append] at h
  exact h

theorem writeAll_new (ws : List (List Byte)) (h : ws.flatten.length ≤ 32768) :
    writeAll Buffer.new ws
      = Res.ok (dataBufAt ws.flatten ws.flatten.length, ws.map (fun s => (s.length, none))) := by
  have h := writeAll_dataBufAt ws [] (by rw [List.length_nil]; omega)
  rw [List.nil_append] at h
  exact h

theorem Seek_zero_dataBufAt (d : List Byte) (k : Nat) (hd : d.length ≤ 32768) :
    (dataBufAt d k).Seek 0 SeekStart = (dataBufAt d 0, 0, none) :=
  Seek_start_dataBufAt d k 0 hd (Nat.zero_le _)

theorem dataBufAt_fullPage_lasti (k : Nat) : (dataBufAt fullPage k).lasti = 32768 := by
  show ((fullPage.length : Nat) : Int) = 32768
  rw [fullPage_length]
  rfl

theorem dataBufAt_fullPage_pages (k : Nat) : (dataBufAt fullPage k).pages.length = 1 := by
  rw [dataBufAt_of_pos _ _ (by rw [fullPage_length]; omega)]
  rfl

theorem dataBufAt_fullPage (k : Nat) : dataBufAt fullPage k = ⟨[fullPage], k, 32768⟩ := by
  rw [dataBufAt_of_pos _ _ (by rw [fullPage_length]; omega), fullPage_length, pageSize_eq,
    Nat.sub_self, List.replicate_zero, List.append_nil]
  rfl

theorem Seek_zero (b : Buffer) (h : 0 ≤ b.lasti) :
    b.Seek 0 SeekStart = (⟨b.pages, 0, b.lasti⟩, 0, none) := by
  unfold Buffer.Seek
  have e2 : ¬ SeekStart = SeekCurrent := by decide
  rw [wrapInt_of_range _ (by omega) (by omega)]
  simp only [e2, if_true, if_false]
  unfold Buffer.setPageI
  have hx : ¬ ((0 : Int) < 0 ∨ (0 : Int) > b.lasti) := by omega
  simp only [hx, if_false]

/-! ## The fuel of the loops is never exhausted -/

theorem index_ne_timeout {α : Type} (xs : List α) (i : Int) : index xs i ≠ Res.timeout := by
  unfold index
  split
  · split <;> simp
  · simp

theorem sliceFrom_ne_timeout {α : Type} (xs : List α) (i : Int) :
    sliceFrom xs i ≠ Res.timeout := by
  unfold sliceFrom
  split <;> simp

theorem sliceTo_ne_timeout {α : Type} (xs : List α) (i : Int) : sliceTo xs i ≠ Res.timeout := by
  unfold sliceTo
  split <;> simp

theorem getPage_ne_timeout (i : bufferIndex) (b : Buffer) : i.getPage b ≠ Res.timeout := by
  unfold bufferIndex.getPage
  split
  · simp
  · split
    · split
      · simp only
        split
        · exact sliceTo_ne_timeout _ _
        · simp
      · simp
      · rename_i h; exact absurd h (sliceFrom_ne_timeout _ _)
    · simp
    · rename_i h; exact absurd h (index_ne_timeout _ _)

theorem readLoop_ne_timeout : ∀ (fuel : Nat) (b : Buffer) (p : List Byte) (n : Nat),
    p.length - n ≤ fuel → readLoop fuel b p n ≠ Res.timeout := by
  intro fuel
  induction fuel with
  | zero =>
    intro b p n hf
    rw [readLoop_done 0 b p n (by omega)]
    simp
  | succ fuel ih =>
    intro b p n hf
    by_cases hle : p.length ≤ n
    · rw [readLoop_done _ b p n hle]; simp
    · rw [readLoop, if_neg hle]
      split
      · simp only
        split
        · simp
        · rename_i pg _ hz
          apply ih
          rw [copyAt_length _ _ _ _ (by omega) (by omega)]
          omega
      · simp
      · rename_i h; exact absurd h (getPage_ne_timeout _ _)

theorem logDataLoop_ne_timeout (b : Buffer) : ∀ l : List Nat, logDataLoop b l ≠ Res.timeout := by
  intro l
  induction l with
  | nil => simp [logDataLoop]
  | cons i l ih =>
    rw [logDataLoop]
    split
    · exact ih
    · simp
    · rename_i h
      unfold logDataStep at h
      split at h
      · split at h <;> simp at h
      · simp at h
      · rename_i h2; exact absurd h2 (getPage_ne_timeout _ _)

theorem logData_ne_timeout (b : Buffer) : b.logData ≠ Res.timeout := by
  unfold Buffer.logData
  split
  · simp
  · exact logDataLoop_ne_timeout b _

theorem deferLogData_ne_timeout {α : Type} (r : Res (Buffer × α)) (h : r ≠ Res.timeout) :
    deferLogData r ≠ Res.timeout := by
  unfold deferLogData
  split
  · split
    · simp
    · simp
    · rename_i h2; exact absurd h2 (logData_ne_timeout _)
  · exact h

/-- The call `Read` never exhausts the fuel of its loop: it returns or panics. -/
theorem Read_ne_timeout (b : Buffer) (p : List Byte) : b.Read p ≠ Res.timeout :=
  deferLogData_ne_timeout _ (readLoop_ne_timeout _ b p 0 (by omega))

theorem writeWindow_ne_timeout (b : Buffer) : writeWindow b ≠ Res.timeout := by
  unfold writeWindow
  simp only
  split
  · split
    · split
      · simp
      · simp
      · rename_i h; exact absurd h (sliceFrom_ne_timeout _ _)
    · simp
    · rename_i h; exact absurd h (index_ne_timeout _ _)
  · simp

theorem writeBody_copies (b : Buffer) (s : List Byte) (b1 : Buffer) (m : Nat)
    (hs : 0 < s.length) (h : writeBody b s = Res.ok (b1, m)) : 0 < m ∧ m ≤ s.length := by
  unfold writeBody at h
  split at h
  · rename_i wi wo wl _
    injection h with h
    injection h with _ h2
    have hP := pageSize_eq
    rw [← h2]
    split <;> omega
  · simp at h
  · simp at h

theorem writeBody_ne_timeout (b : Buffer) (s : List Byte) : writeBody b s ≠ Res.timeout := by
  unfold writeBody
  split
  · simp
  · simp
  · rename_i h; exact absurd h (writeWindow_ne_timeout _)

theorem writeLoop_ne_timeout : ∀ (fuel : Nat) (b : Buffer) (p : List Byte) (n : Nat),
    p.length - n ≤ fuel → writeLoop fuel b p n ≠ Res.timeout := by
  intro fuel
  induction fuel with
  | zero =>
    intro b p n hf
    rw [writeLoop_done 0 b p n (by omega)]
    simp
  | succ fuel ih =>
    intro b p n hf
    by_cases hle : p.length ≤ n
    · rw [writeLoop_done _ b p n hle]; simp
    · rw [writeLoop, if_neg hle]
      split
      · rename_i b1 m hw
        have hs : 0 < (p.drop n).length := by rw [List.length_drop]; omega
        have := writeBody_copies b _ b1 m hs hw
        apply ih
        omega
      · simp
      · rename_i h; exact absurd h (writeBody_ne_timeout _ _)

/-- The call `Write` never exhausts the fuel of its loop: it returns or panics. -/
theorem Write_ne_timeout (b : Buffer) (p : List Byte) : b.Write p ≠ Res.timeout :=
  deferLogData_ne_timeout _ (writeLoop_ne_timeout _ b p 0 (by omega))

/-- The call `Read` with the cursor at the end of a single-page buffer of less
than a page of data. -/
theorem Read_dataBufAt_end (d dst : List Byte) (hd : d.length < 32768) (hdst : 0 < dst.length) :
    (dataBufAt d d.length).Read dst = Res.ok (dataBufAt d d.length, dst, 0, some Err.EOF) := by
  have h := Read_dataBufAt d dst d.length (by omega) (le_refl _) (Or.inl hd)
  have e : min dst.length (d.length - d.length) = 0 := by omega
  rw [e, List.take_zero, List.drop_zero, List.nil_append, Nat.add_zero, if_pos hdst] at h
  exact h

theorem setPageI_lasti (b : Buffer) (o : Int) : (b.setPageI o).1.lasti = b.lasti := by
  unfold Buffer.setPageI
  split <;> rfl

theorem setPageI_pages (b : Buffer) (o : Int) : (b.setPageI o).1.pages = b.pages := by
  unfold Buffer.setPageI
  split <;> rfl

theorem Seek_lasti (b : Buffer) (offset whence : Int) :
    (b.Seek offset whence).1.lasti = b.lasti := by
  unfold Buffer.Seek
  simp only
  split_ifs
  · exact setPageI_lasti b _
  · exact setPageI_lasti b _
  · exact setPageI_lasti b _
  · rfl

theorem Seek_pages (b : Buffer) (offset whence : Int) :
    (b.Seek offset whence).1.pages = b.pages := by
  unfold Buffer.Seek
  simp only
  split_ifs
  · exact setPageI_pages b _
  · exact setPageI_pages b _
  · exact setPageI_pages b _
  · rfl

/-- Postcondition of `Write` on a state that satisfies the invariant. -/
theorem Write_post (b : Buffer) (p : List Byte) (b' : Buffer) (n : Nat) (err : Option Err)
    (hinv : Inv b) (h : b.Write p = Res.ok (b', n, err)) :
    n = p.length ∧ err = none ∧ b'.pagei = b.pagei + (p.length : Int) ∧
      b'.lasti = max b.lasti b'.pagei ∧ b.pages.length ≤ b'.pages.length := by
  have h1 := deferLogData_ok _ _ h
  obtain ⟨-, r2, r3, r4, r5, r6⟩ := writeLoop_spec _ b p 0 b' n err hinv (Nat.zero_le _) h1
  exact ⟨r2, r3, by simpa using r4, r5, r6⟩

theorem setPageI_same (b : Buffer) (h0 : 0 ≤ b.pagei) (h1 : b.pagei ≤ b.lasti) :
    b.setPageI b.pagei = (b, none) := by
  unfold Buffer.setPageI
  rw [if_neg (by omega)]

theorem getBufferIndex_nonneg (i : Int) (h : 0 ≤ i) :
    getBufferIndex i = ⟨i / 32768, i % 32768⟩ := by
  obtain ⟨c, hc⟩ := Int.eq_ofNat_of_zero_le h
  subst hc
  rw [getBufferIndex_natCast]
  push_cast
  rfl

theorem ldiff_4096_32767 : Nat.ldiff 4096 32767 = 0 := by
  apply Nat.eq_of_testBit_eq
  intro i
  rw [Nat.testBit_ldiff]
  simp only [Nat.zero_testBit]
  have h1 : (32767 : Nat) = 2 ^ 15 - 1 := by norm_num
  have h2 : (4096 : Nat) = 2 ^ 12 := by norm_num
  rw [h1, h2, Nat.testBit_two_pow_sub_one, Nat.testBit_two_pow]
  by_cases h : 12 = i
  · subst h; simp
  · simp [h]

theorem take_min_length {α : Type} (l : List α) (k : Nat) :
    l.take k = l.take (min l.length k) := by
  by_cases h : k ≤ l.length
  · rw [Nat.min_eq_right h]
  · rw [Nat.min_eq_left (by omega), List.take_of_length_le (by omega), List.take_length]

theorem Seek_current_zero_dataBufAt (d : List Byte) (k : Nat) (hd : d.length ≤ 32768)
    (hk : k ≤ d.length) :
    (dataBufAt d k).Seek 0 SeekCurrent = (dataBufAt d k, (k : Int), none) := by
  unfold Buffer.Seek
  rw [wrapInt_of_range 0 (by omega) (by omega)]
  simp only [if_true, Int.add_zero]
  have e : (dataBufAt d k).pagei = (k : Int) := rfl
  rw [e, wrapInt_of_range _ (by omega) (by omega)]
  unfold Buffer.setPageI
  have hx : ¬ ((k : Int) < 0 ∨ (k : Int) > (dataBufAt d k).lasti) := by
    show ¬ ((k : Int) < 0 ∨ (k : Int) > (d.length : Int))
    omega
  simp only [hx, if_false]
  rfl

/-! ## Pages appended by `Write` -/

theorem writeLoop_of_writeBody (b : Buffer) (s : List Byte) (b1 : Buffer) (hs : 0 < s.length)
    (h : writeBody b s = Res.ok (b1, s.length)) :
    writeLoop s.length b s 0 = Res.ok (b1, s.length, none) := by
  obtain ⟨k, hk⟩ : ∃ k, s.length = k + 1 := ⟨s.length - 1, by omega⟩
  rw [hk, writeLoop, if_neg (by omega), List.drop_zero, h, ← hk]
  simp only
  rw [writeLoop_done _ _ _ _ (by omega), Nat.zero_add]

theorem copyAt_newPage (s : List Byte) (m : Nat) :
    copyAt newPage 0 s m = s.take m ++ List.replicate (pageSize - m) 0 := by
  unfold copyAt newPage
  rw [List.take_zero, List.nil_append, Nat.zero_add, List.drop_replicate]

/-- The first iteration of the `Write` loop when the cursor is 0: a page is
appended and receives the first `min(32768, len(s))` bytes of the source. -/
theorem writeBody_at_zero (b : Buffer) (s : List Byte) (hinv : Inv b) (hc : b.pagei = 0) :
    writeBody b s =
      Res.ok (⟨b.pages ++ [s.take (min 32768 s.length)
            ++ List.replicate (pageSize - min 32768 s.length) 0],
          ((min 32768 s.length : Nat) : Int),
          max b.lasti ((min 32768 s.length : Nat) : Int)⟩, min 32768 s.length) := by
  rw [writeBody_of_inv b 0 (by rw [hc]; rfl) hinv, if_pos rfl, copyAt_newPage, ite_gt_eq_max, hc,
    Int.zero_add]

/-- The number of pages after the `Write` loop: one more when the loop starts
an iteration with the cursor at 0, the same otherwise. -/
theorem writeLoop_pages_length : ∀ (fuel : Nat) (b : Buffer) (p : List Byte) (n : Nat)
    (b' : Buffer) (n' : Nat) (err : Option Err),
    Inv b → n ≤ p.length → writeLoop fuel b p n = Res.ok (b', n', err) →
    b'.pages.length = b.pages.length + (if b.pagei = 0 ∧ n < p.length then 1 else 0) := by
  intro fuel
  induction fuel with
  | zero =>
    intro b p n b' n' err hinv hn h
    rw [writeLoop] at h
    split at h
    · injection h with h
      injection h with h1 h
      subst h1
      rw [if_neg (by omega)]; rfl
    · exact absurd h (by simp)
  | succ fuel ih =>
    intro b p n b' n' err hinv hn h
    rw [writeLoop] at h
    split at h
    · injection h with h
      injection h with h1 h
      subst h1
      rw [if_neg (by omega)]; rfl
    · rename_i hlt
      cases hw : writeBody b (p.drop n) with
      | panic => rw [hw] at h; exact absurd h (by simp)
      | timeout => rw [hw] at h; exact absurd h (by simp)
      | ok r =>
        obtain ⟨b1, m⟩ := r
        rw [hw] at h
        simp only at h
        have hs : 0 < (p.drop n).length := by rw [List.length_drop]; omega
        obtain ⟨w1, w2, w3, w4, -, -⟩ := writeBody_props b _ b1 m hinv hs hw
        rw [List.length_drop] at w3
        have hih := ih b1 p (n + m) b' n' err w1 (by omega) h
        have hpos : ¬ (b1.pagei = 0 ∧ n + m < p.length) := by
          have := hinv.1
          intro hx; omega
        rw [if_neg hpos, Nat.add_zero] at hih
        rw [hih]
        obtain ⟨c, hc⟩ := Int.eq_ofNat_of_zero_le hinv.1
        rw [writeBody_of_inv b c hc hinv] at hw
        by_cases h0 : c = 0
        · rw [if_pos h0] at hw
          injection hw with hw
          injection hw with hw1 _
          have hp1 : b1.pages.length = b.pages.length + 1 := by rw [← hw1]; simp
          have hif : (if b.pagei = 0 ∧ n < p.length then 1 else 0) = 1 :=
            if_pos ⟨by rw [hc, h0]; rfl, by omega⟩
          rw [hp1, hif]
        · rw [if_neg h0] at hw
          split at hw
          · injection hw with hw
            injection hw with hw1 _
            have hp1 : b1.pages.length = b.pages.length := by rw [← hw1]; simp
            have hif : (if b.pagei = 0 ∧ n < p.length then 1 else 0) = 0 :=
              if_neg (by intro hx; apply h0; have := hx.1; omega)
            rw [hp1, hif, Nat.add_zero]
          · exact absurd hw (by simp)

/-- The `Write` loop started at a positive cursor leaves the pages below the
page of the cursor as they are. -/
theorem writeLoop_pages_below : ∀ (fuel : Nat) (b : Buffer) (p : List Byte) (n : Nat)
    (b' : Buffer) (n' : Nat) (err : Option Err),
    Inv b → 0 < b.pagei → n ≤ p.length → writeLoop fuel b p n = Res.ok (b', n', err) →
    ∀ k : Nat, ((k : Int) + 1) * 32768 ≤ b.pagei → b'.pages[k]? = b.pages[k]? := by
  intro fuel
  induction fuel with
  | zero =>
    intro b p n b' n' err hinv hpos hn h k hk
    rw [writeLoop] at h
    split at h
    · injection h with h
      injection h with h1 h
      subst h1
      rfl
    · exact absurd h (by simp)
  | succ fuel ih =>
    intro b p n b' n' err hinv hpos hn h k hk
    rw [writeLoop] at h
    split at h
    · injection h with h
      injection h with h1 h
      subst h1
      rfl
    · rename_i hlt
      cases hw : writeBody b (p.drop n) with
      | panic => rw [hw] at h; exact absurd h (by simp)
      | timeout => rw [hw] at h; exact absurd h (by simp)
      | ok r =>
        obtain ⟨b1, m⟩ := r
        rw [hw] at h
        simp only at h
        have hs : 0 < (p.drop n).length := by rw [List.length_drop]; omega
        obtain ⟨w1, w2, w3, w4, -, -⟩ := writeBody_props b _ b1 m hinv hs hw
        rw [List.length_drop] at w3
        have hih := ih b1 p (n + m) b' n' err w1 (by omega) (by omega) h k (by omega)
        rw [hih]
        obtain ⟨c, hc⟩ := Int.eq_ofNat_of_zero_le hinv.1
        rw [writeBody_of_inv b c hc hinv] at hw
        have h0 : ¬ c = 0 := by omega
        rw [if_neg h0] at hw
        split at hw
        · injection hw with hw
          injection hw with hw1 _
          have hp1 : b1.pages = List.modify (fun pagePtr =>
              copyAt pagePtr (c % 32768) (List.drop n p)
                (min (32768 - c % 32768) (List.drop n p).length)) (c / 32768) b.pages := by
            rw [← hw1]
          rw [hp1, List.getElem?_modify_ne]
          omega
        · exact absurd hw (by simp)

/-- The call `Write` with the cursor at 0 and a source of at most one page: a
page is appended and receives the source, whatever pages exist. -/
theorem Write_at_zero (b : Buffer) (s : List Byte) (hinv : Inv b) (hc : b.pagei = 0)
    (hs : 0 < s.length) (hle : s.length ≤ 32768)
    (hlog : (b.pages.length : Int) * pageSize ≤ max b.lasti (s.length : Int)) :
    b.Write s = Res.ok (⟨b.pages ++ [s ++ List.replicate (pageSize - s.length) 0],
      (s.length : Int), max b.lasti (s.length : Int)⟩, s.length, none) := by
  have hbody := writeBody_at_zero b s hinv hc
  have hm : min 32768 s.length = s.length := by omega
  rw [hm, List.take_length] at hbody
  have hinv1 := (writeBody_props b s _ s.length hinv hs hbody).1
  have hl := logData_ok _ hinv1 (by
    simp only [List.length_append, List.length_singleton]
    push_cast
    rw [add_mul, one_mul]
    exact add_le_add_right hlog _)
  exact Write_of_writeBody b s _ hs hbody hl

theorem reachable_fullPage_zero : Reachable ⟨[fullPage], 0, 32768⟩ := by
  have h := reachable_dataBufAt fullPage 0 (by rw [fullPage_length]) (Nat.zero_le _)
  rw [dataBufAt_fullPage] at h
  exact h

theorem Write_fullPage_at_zero :
    (⟨[fullPage], 0, 32768⟩ : Buffer).Write [9]
      = Res.ok (⟨[fullPage, [9] ++ List.replicate (pageSize - 1) 0], 1, 32768⟩, 1, none) := by
  have h := Write_at_zero ⟨[fullPage], 0, 32768⟩ [9] reachable_fullPage_zero.inv rfl
    (Nat.zero_lt_one) (by decide) (by
      show ((1 : Nat) : Int) * (pageSize : Int) ≤ max (32768 : Int) ((1 : Nat) : Int)
      rw [pageSize_eq]; decide)
  have e : max (32768 : Int) ((([9] : List Byte).length : Nat) : Int) = 32768 := by decide
  have e2 : (⟨[fullPage], 0, 32768⟩ : Buffer).lasti = 32768 := rfl
  rw [e2, e] at h
  exact h

/-- The `Write` loop started at a positive cursor leaves as they are the pages
that lie at or behind the end of the bytes still to write. -/
theorem writeLoop_pages_above : ∀ (fuel : Nat) (b : Buffer) (p : List Byte) (n : Nat)
    (b' : Buffer) (n' : Nat) (err : Option Err),
    Inv b → 0 < b.pagei → n ≤ p.length → writeLoop fuel b p n = Res.ok (b', n', err) →
    ∀ k : Nat, b.pagei + ((p.length - n : Nat) : Int) ≤ (k : Int) * 32768 →
      b'.pages[k]? = b.pages[k]? := by
  intro fuel
  induction fuel with
  | zero =>
    intro b p n b' n' err hinv hpos hn h k hk
    rw [writeLoop] at h
    split at h
    · injection h with h
      injection h with h1 h
      subst h1
      rfl
    · exact absurd h (by simp)
  | succ fuel ih =>
    intro b p n b' n' err hinv hpos hn h k hk
    rw [writeLoop] at h
    split at h
    · injection h with h
      injection h with h1 h
      subst h1
      rfl
    · rename_i hlt
      cases hw : writeBody b (p.drop n) with
      | panic => rw [hw] at h; exact absurd h (by simp)
      | timeout => rw [hw] at h; exact absurd h (by simp)
      | ok r =>
        obtain ⟨b1, m⟩ := r
        rw [hw] at h
        simp only at h
        have hs : 0 < (p.drop n).length := by rw [List.length_drop]; omega
        obtain ⟨w1, w2, w3, w4, -, -⟩ := writeBody_props b _ b1 m hinv hs hw
        rw [List.length_drop] at w3
        have hih := ih b1 p (n + m) b' n' err w1 (by omega) (by omega) h k (by omega)
        rw [hih]
        obtain ⟨c, hc⟩ := Int.eq_ofNat_of_zero_le hinv.1
        rw [writeBody_of_inv b c hc hinv] at hw
        have h0 : ¬ c = 0 := by omega
        rw [if_neg h0] at hw
        split at hw
        · injection hw with hw
          injection hw with hw1 _
          have hp1 : b1.pages = List.modify (fun pagePtr =>
              copyAt pagePtr (c % 32768) (List.drop n p)
                (min (32768 - c % 32768) (List.drop n p).length)) (c / 32768) b.pages := by
            rw [← hw1]
          rw [hp1, List.getElem?_modify_ne]
          omega
        · exact absurd hw (by simp)

/-- A `Write` that two iterations of its loop complete. -/
theorem Write_of_two_writeBody (b : Buffer) (s : List Byte) (b1 b2 : Buffer) (m1 m2 : Nat)
    (hm1 : 0 < m1) (hm2 : 0 < m2) (hsum : m1 + m2 = s.length)
    (h1 : writeBody b s = Res.ok (b1, m1))
    (h2 : writeBody b1 (s.drop m1) = Res.ok (b2, m2)) (hl : b2.logData = Res.ok ()) :
    b.Write s = Res.ok (b2, s.length, none) := by
  unfold Buffer.Write
  obtain ⟨k, hk⟩ : ∃ k, s.length = k + 2 := ⟨s.length - 2, by omega⟩
  have e : writeLoop s.length b s 0 = Res.ok (b2, s.length, none) := by
    rw [hk, writeLoop, if_neg (by omega), List.drop_zero, h1]
    simp only [Nat.zero_add]
    rw [writeLoop, if_neg (by omega), h2]
    simp only
    rw [writeLoop_done _ _ _ _ (by omega), hsum, hk]
  rw [e]
  simp only [deferLogData, hl]

theorem onesThenTwo_length : onesThenTwo.length = 32769 := by
  rw [onesThenTwo, List.length_append, List.length_replicate, pageSize_eq]
  rfl

theorem onesThenTwo_take : onesThenTwo.take 32768 = List.replicate pageSize 1 := by
  rw [onesThenTwo]
  exact List.take_left' (by rw [List.length_replicate, pageSize_eq])

theorem onesThenTwo_drop : onesThenTwo.drop 32768 = [2] := by
  rw [onesThenTwo]
  exact List.drop_left' (by rw [List.length_replicate, pageSize_eq])

/-- The call `Write` of a page of ones and a two, at cursor 0 of a buffer of one
full page: the first iteration fills an appended page, the second starts at
cursor 32768, which is that page, and writes the last byte over its start. -/
theorem Write_fullPage_onesThenTwo :
    (⟨[fullPage], 0, 32768⟩ : Buffer).Write onesThenTwo
      = Res.ok (⟨[fullPage, [2] ++ List.replicate (pageSize - 1) 1], 32769, 32769⟩,
          32769, none) := by
  have hP := pageSize_eq
  have hlen := onesThenTwo_length
  have hinv0 := reachable_fullPage_zero.inv
  -- first iteration
  have hb1 : writeBody ⟨[fullPage], 0, 32768⟩ onesThenTwo
      = Res.ok (⟨[fullPage, List.replicate pageSize 1], 32768, 32768⟩, 32768) := by
    have h := writeBody_at_zero ⟨[fullPage], 0, 32768⟩ onesThenTwo hinv0 rfl
    have hm : min 32768 onesThenTwo.length = 32768 := by rw [hlen]; decide
    have hz : pageSize - 32768 = 0 := by rw [hP]
    rw [hm, onesThenTwo_take, hz, List.replicate_zero, List.append_nil] at h
    exact h
  have hinv1 : Inv ⟨[fullPage, List.replicate pageSize 1], 32768, 32768⟩ :=
    (writeBody_props _ onesThenTwo _ 32768 hinv0 (by rw [hlen]; decide) hb1).1
  -- second iteration
  have hb2 : writeBody ⟨[fullPage, List.replicate pageSize 1], 32768, 32768⟩
        (onesThenTwo.drop 32768)
      = Res.ok (⟨[fullPage, [2] ++ List.replicate (pageSize - 1) 1], 32769, 32769⟩, 1) := by
    have h := writeBody_of_inv ⟨[fullPage, List.replicate pageSize 1], 32768, 32768⟩ 32768 rfl
      hinv1 (onesThenTwo.drop 32768)
    have e1 : (32768 : Nat) / 32768 = 1 := by norm_num
    have e2 : (32768 : Nat) % 32768 = 0 := by norm_num
    have e3 : ¬ (32768 : Nat) = 0 := by norm_num
    have e4 : min (32768 - 0) ([2] : List Byte).length = 1 := by decide
    have e5 : copyAt (List.replicate pageSize (1 : Byte)) 0 [2] 1
        = [2] ++ List.replicate (pageSize - 1) 1 := by
      unfold copyAt
      rw [List.take_zero, List.nil_append, Nat.zero_add, List.drop_replicate]
      rfl
    rw [onesThenTwo_drop, if_neg e3, e1, e2, e4] at h
    rw [if_pos (by show 1 < 2; decide)] at h
    rw [onesThenTwo_drop, h]
    simp only [List.modify_succ_cons, List.modify_zero_cons, e5]
    have e6 : (32768 : Int) + ((1 : Nat) : Int) = 32769 := by norm_num
    rw [e6, if_pos (by norm_num)]
  have hinv2 : Inv ⟨[fullPage, [2] ++ List.replicate (pageSize - 1) 1], 32769, 32769⟩ :=
    (writeBody_props _ (onesThenTwo.drop 32768) _ 1 hinv1
      (by rw [onesThenTwo_drop]; decide) hb2).1
  have hl : (⟨[fullPage, [2] ++ List.replicate (pageSize - 1) 1], 32769, 32769⟩
      : Buffer).logData = Res.ok () :=
    logData_ok _ hinv2 (by
      show ((2 : Nat) : Int) * (pageSize : Int) ≤ 32769 + (pageSize : Int)
      rw [hP]; decide)
  have h := Write_of_two_writeBody _ onesThenTwo _ _ 32768 1 (by decide) (by decide)
    (by rw [hlen]) hb1 hb2 hl
  rw [hlen] at h
  exact h

/-! ## The claims -/

/-- C1, at the failing input of one write of exactly one page (32768 bytes of
value 7).  The write returns `(32768, nil)`, `Seek(0, io.SeekStart)` returns
`(0, nil)` and one `Read` into 32768 bytes returns the written bytes, but the
one further `Read` into a non-empty destination panics: the cursor 32768
translates to page index 1 and the buffer has one page. -/
theorem roundtrip_full_page_further_read_panics :
    writeAll Buffer.new [fullPage]
      = Res.ok (dataBufAt fullPage 32768, [(32768, none)]) ∧
    (dataBufAt fullPage 32768).Seek 0 SeekStart = (dataBufAt fullPage 0, 0, none) ∧
    (dataBufAt fullPage 0).Read newPage
      = Res.ok (dataBufAt fullPage 32768, fullPage, 32768, none) ∧
    (dataBufAt fullPage 32768).Read [0] = Res.panic := by
  have hl := fullPage_length
  have hf : [fullPage].flatten = fullPage := by
    rw [List.flatten_cons, List.flatten_nil, List.append_nil]
  refine ⟨?_, ?_, ?_, ?_⟩
  · have h := writeAll_new [fullPage] (by rw [hf, hl])
    rw [hf, List.map_cons, List.map_nil, hl] at h
    exact h
  · exact Seek_zero_dataBufAt fullPage 32768 (by omega)
  · have h := Read_dataBufAt_all fullPage newPage (by omega) (by rw [newPage_length, hl, pageSize_eq])
    rw [hl] at h
    exact h
  · have hne : (dataBufAt fullPage 32768).pages.length ≠ 0 := by
      rw [dataBufAt_fullPage_pages]; omega
    have hle : (dataBufAt fullPage 32768).pages.length ≤ 32768 / 32768 := by
      rw [dataBufAt_fullPage_pages]
    exact Read_panic_boundary _ [0] 32768 (dataBufAt_inv _ _ (by omega) (by omega)) rfl
      (dataBufAt_fullPage_lasti _) hne hle (Nat.zero_lt_one)

/-- C2.  For byte strings of total length `T < 32768` written in turn to a new
buffer, each `Write(src)` returns `(len(src), nil)`, `Seek(0, io.SeekStart)`
then returns `(0, nil)`, and a single `Read` into a destination of length `T`
returns `n = T` and fills the destination with the concatenation of the strings
in order. -/
theorem write_all_seek_read_single_page (ws : List (List Byte)) (dst : List Byte)
    (hT : ws.flatten.length < 32768) (hdst : dst.length = ws.flatten.length) :
    writeAll Buffer.new ws
      = Res.ok (dataBufAt ws.flatten ws.flatten.length, ws.map (fun s => (s.length, none))) ∧
    (dataBufAt ws.flatten ws.flatten.length).Seek 0 SeekStart
      = (dataBufAt ws.flatten 0, 0, none) ∧
    (dataBufAt ws.flatten 0).Read dst
      = Res.ok (dataBufAt ws.flatten ws.flatten.length, ws.flatten, ws.flatten.length, none) := by
  exact ⟨writeAll_new ws (by omega), Seek_zero_dataBufAt _ _ (by omega),
    Read_dataBufAt_all _ dst (by omega) hdst⟩

/-- Witness of C2: the test `wwwHelloWorldRRRHelloWorld`, three writes of
"Hello, World!" and one read of 39 bytes. -/
theorem write_all_seek_read_single_page_witness :
    ([helloWorld, helloWorld, helloWorld].flatten.length < 32768 ∧
      (List.replicate 39 (0 : Byte)).length = [helloWorld, helloWorld, helloWorld].flatten.length) ∧
    (writeAll Buffer.new [helloWorld, helloWorld, helloWorld]
      = Res.ok (dataBufAt [helloWorld, helloWorld, helloWorld].flatten
            [helloWorld, helloWorld, helloWorld].flatten.length,
          [helloWorld, helloWorld, helloWorld].map (fun s => (s.length, none))) ∧
    (dataBufAt [helloWorld, helloWorld, helloWorld].flatten
        [helloWorld, helloWorld, helloWorld].flatten.length).Seek 0 SeekStart
      = (dataBufAt [helloWorld, helloWorld, helloWorld].flatten 0, 0, none) ∧
    (dataBufAt [helloWorld, helloWorld, helloWorld].flatten 0).Read (List.replicate 39 0)
      = Res.ok (dataBufAt [helloWorld, helloWorld, helloWorld].flatten
            [helloWorld, helloWorld, helloWorld].flatten.length,
          [helloWorld, helloWorld, helloWorld].flatten,
          [helloWorld, helloWorld, helloWorld].flatten.length, none)) :=
  ⟨⟨by decide, by decide⟩,
    write_all_seek_read_single_page [helloWorld, helloWorld, helloWorld] (List.replicate 39 0)
      (by decide) (by decide)⟩

/-- C3, at the failing input: the state reached from a new buffer by one
`Write` of exactly one page (cursor and length 32768, one page), and then
`Write` of the one byte 0.  The call panics on `b.pages[1]` instead of returning
`(1, nil)`. -/
theorem write_after_full_page_panics :
    Reachable (dataBufAt fullPage 32768) ∧ (dataBufAt fullPage 32768).Write [0] = Res.panic := by
  have hl := fullPage_length
  have hle : (dataBufAt fullPage 32768).pages.length ≤ 32768 / 32768 := by
    rw [dataBufAt_fullPage_pages]
  exact ⟨reachable_dataBufAt _ _ (by omega) (by omega),
    Write_panic_boundary _ [0] 32768 (dataBufAt_inv _ _ (by omega) (by omega)) rfl
      (by omega) hle (Nat.zero_lt_one)⟩

/-- C4, at the failing input `k = 0` on a buffer that holds data: the buffer
reached by one `Write` of exactly one page of bytes 7 and `Seek(0, io.SeekStart)`,
and `src` the one byte 9.  `Write(src)` returns `(1, nil)` but appends a second
page and copies `src` there, leaving page 0 as it was; after
`Seek(0, io.SeekStart)` a `Read` into one byte returns the old byte 7, not 9. -/
theorem write_at_zero_does_not_overwrite :
    Reachable ⟨[fullPage], 0, 32768⟩ ∧
    (⟨[fullPage], 0, 32768⟩ : Buffer).Write [9]
      = Res.ok (⟨[fullPage, copyAt newPage 0 [9] 1], 1, 32768⟩, 1, none) ∧
    (⟨[fullPage, copyAt newPage 0 [9] 1], 1, 32768⟩ : Buffer).Seek 0 SeekStart
      = (⟨[fullPage, copyAt newPage 0 [9] 1], 0, 32768⟩, 0, none) ∧
    (⟨[fullPage, copyAt newPage 0 [9] 1], 0, 32768⟩ : Buffer).Read [0]
      = Res.ok (⟨[fullPage, copyAt newPage 0 [9] 1], 1, 32768⟩, [7], 1, none) := by
  have hl := fullPage_length
  have hP := pageSize_eq
  have hreach : Reachable ⟨[fullPage], 0, 32768⟩ := by
    have h := reachable_dataBufAt fullPage 0 (by omega) (by omega)
    rw [dataBufAt_fullPage] at h
    exact h
  have hinv0 := hreach.inv
  -- the body of the one loop iteration
  have hbody : writeBody ⟨[fullPage], 0, 32768⟩ [9]
      = Res.ok (⟨[fullPage, copyAt newPage 0 [9] 1], 1, 32768⟩, 1) := by
    rw [writeBody_of_inv _ 0 rfl hinv0, if_pos rfl]
    rfl
  have hinv1 : Inv ⟨[fullPage, copyAt newPage 0 [9] 1], 1, 32768⟩ :=
    (writeBody_props _ [9] _ 1 hinv0 (Nat.zero_lt_one) hbody).1
  have hlog1 : (⟨[fullPage, copyAt newPage 0 [9] 1], 1, 32768⟩ : Buffer).logData = Res.ok () :=
    logData_ok _ hinv1 (by
      show ((2 : Nat) : Int) * (pageSize : Int) ≤ 32768 + (pageSize : Int)
      rw [hP]; norm_num)
  have hinv2 : Inv ⟨[fullPage, copyAt newPage 0 [9] 1], 0, 32768⟩ := by
    obtain ⟨i1, i2, i3, i4⟩ := hinv1
    exact ⟨le_refl _, by show (0 : Int) ≤ 32768; omega, i3, i4⟩
  refine ⟨hreach, ?_, ?_, ?_⟩
  · exact Write_of_writeBody _ [9] _ (Nat.zero_lt_one) hbody hlog1
  · exact Seek_zero _ (by show (0 : Int) ≤ 32768; omega)
  · obtain ⟨⟨b', p', n, err⟩, hr⟩ := Read_ok _ [0] hinv2
      (Or.inr (Or.inl (by
        show (32768 : Int) < ((2 : Nat) : Int) * (pageSize : Int)
        rw [hP]; norm_num)))
      (by
        show ((2 : Nat) : Int) * (pageSize : Int) ≤ 32768 + (pageSize : Int)
        rw [hP]; norm_num)
    obtain ⟨r1, r2, r3, r4, r5, r6, r7, r8⟩ := Read_post _ [0] b' p' n err hinv2 hr
    have hn : n = 1 := by
      have : (([0] : List Byte).length : Int) = 1 := rfl
      rw [this] at r1
      have e : ((⟨[fullPage, copyAt newPage 0 [9] 1], 0, 32768⟩ : Buffer).lasti
          - (⟨[fullPage, copyAt newPage 0 [9] 1], 0, 32768⟩ : Buffer).pagei : Int) = 32768 := by
        show (32768 : Int) - 0 = 32768
        omega
      rw [e] at r1
      omega
    subst hn
    have hb0 : (⟨[fullPage, copyAt newPage 0 [9] 1], 0, 32768⟩ : Buffer).byteAt ((0 : Nat) : Int)
        = some 7 := by
      rw [byteAt_natCast _ 0 (by show 0 / 32768 < 2; omega)]
      show fullPage[0]? = some 7
      unfold fullPage
      rw [List.getElem?_replicate, if_pos (by rw [hP]; omega)]
    have hp0 : p'[0]? = some 7 := by
      rw [r3 0 (by omega)]
      exact hb0
    have hp' : p' = [7] := by
      apply List.ext_getElem?
      intro j
      cases j with
      | zero => rw [hp0]; rfl
      | succ j =>
        rw [r4 (j + 1) (by omega)]
        rfl
    rw [hr, hp', r8]
    cases b' with
    | mk pages pagei lasti =>
      simp only at r5 r6 r7
      subst r5 r6 r7
      rfl

/-- C5.  For a buffer with `0 <= pagei <= lasti` (and `lasti`, `offset` 64-bit
values), `Seek` is the reference definition `seekRef`: an origin other than
`io.SeekStart`, `io.SeekCurrent`, `io.SeekEnd` gives the invalid-origin error;
otherwise, with `c` the candidate `offset`, `pagei + offset` or
`lasti + offset`, it gives the out-of-range error exactly when `c < 0` or
`c > lasti`, and otherwise sets `pagei = c` and returns `(c, nil)`.  In
particular `Seek(lasti, io.SeekStart)` succeeds and `Seek(lasti + 1, io.SeekStart)`
fails with out-of-range. -/
theorem Seek_eq_seekRef (b : Buffer) (offset whence : Int)
    (h0 : 0 ≤ b.pagei) (h1 : b.pagei ≤ b.lasti) (h2 : b.lasti < 2 ^ 63)
    (ho1 : -2 ^ 63 ≤ offset) (ho2 : offset < 2 ^ 63) :
    seekResult (b.Seek offset whence) = seekRef b offset whence ∧
    seekResult (b.Seek b.lasti SeekStart) = Except.ok (⟨b.pages, b.lasti, b.lasti⟩, b.lasti) ∧
    (b.lasti + 1 < 2 ^ 63 →
      seekResult (b.Seek (b.lasti + 1) SeekStart) = Except.error Err.errSeekOutOfRange) := by
  have hw := wrapInt_of_range offset ho1 ho2
  refine ⟨?_, ?_, ?_⟩
  · unfold Buffer.Seek seekRef
    rw [hw]
    by_cases hc : whence = SeekCurrent
    · subst hc
      have e1 : ¬ (SeekCurrent ≠ SeekStart ∧ SeekCurrent ≠ SeekCurrent ∧ SeekCurrent ≠ SeekEnd) := by
        simp
      have e2 : ¬ SeekCurrent = SeekStart := by decide
      simp only [e1, e2, if_true, if_false]
      by_cases hr : b.pagei + offset < 2 ^ 63
      · rw [wrapInt_of_range _ (by omega) hr]
        unfold Buffer.setPageI
        by_cases hx : b.pagei + offset < 0 ∨ b.pagei + offset > b.lasti
        · simp only [hx, if_true, seekResult]
        · simp only [hx, if_false, seekResult]
      · have hneg : wrapInt (b.pagei + offset) < 0 := by unfold wrapInt; omega
        unfold Buffer.setPageI
        have hx : b.pagei + offset < 0 ∨ b.pagei + offset > b.lasti := Or.inr (by omega)
        simp only [hneg, hx, true_or, if_true, seekResult]
    · by_cases hs : whence = SeekStart
      · subst hs
        have e1 : ¬ (SeekStart ≠ SeekStart ∧ SeekStart ≠ SeekCurrent ∧ SeekStart ≠ SeekEnd) := by
          simp
        simp only [e1, hc, if_true, if_false]
        unfold Buffer.setPageI
        by_cases hx : offset < 0 ∨ offset > b.lasti
        · simp only [hx, if_true, seekResult]
        · simp only [hx, if_false, seekResult]
      · by_cases he : whence = SeekEnd
        · subst he
          have e1 : ¬ (SeekEnd ≠ SeekStart ∧ SeekEnd ≠ SeekCurrent ∧ SeekEnd ≠ SeekEnd) := by
            simp
          simp only [e1, hc, hs, if_true, if_false]
          by_cases hr : b.lasti + offset < 2 ^ 63
          · rw [wrapInt_of_range _ (by omega) hr]
            unfold Buffer.setPageI
            by_cases hx : b.lasti + offset < 0 ∨ b.lasti + offset > b.lasti
            · simp only [hx, if_true, seekResult]
            · simp only [hx, if_false, seekResult]
          · have hneg : wrapInt (b.lasti + offset) < 0 := by unfold wrapInt; omega
            unfold Buffer.setPageI
            have hx : b.lasti + offset < 0 ∨ b.lasti + offset > b.lasti := Or.inr (by omega)
            simp only [hneg, hx, true_or, if_true, seekResult]
        · have e1 : whence ≠ SeekStart ∧ whence ≠ SeekCurrent ∧ whence ≠ SeekEnd := ⟨hs, hc, he⟩
          simp only [e1, hc, hs, he, if_true, if_false, seekResult, and_self, ne_eq,
            not_false_eq_true]
  · unfold Buffer.Seek
    have e2 : ¬ SeekStart = SeekCurrent := by decide
    rw [wrapInt_of_range _ (by omega) h2]
    simp only [e2, if_true, if_false]
    unfold Buffer.setPageI
    have hx : ¬ (b.lasti < 0 ∨ b.lasti > b.lasti) := by omega
    simp only [hx, if_false, seekResult]
  · intro h3
    unfold Buffer.Seek
    have e2 : ¬ SeekStart = SeekCurrent := by decide
    rw [wrapInt_of_range _ (by omega) h3]
    simp only [e2, if_true, if_false]
    unfold Buffer.setPageI
    have hx : b.lasti + 1 < 0 ∨ b.lasti + 1 > b.lasti := Or.inr (by omega)
    simp only [hx, if_true, seekResult]

/-- Witness of C5 on a one-page buffer with cursor 5 and length 13, for
`Seek(-3, io.SeekCurrent)`. -/
theorem Seek_eq_seekRef_witness :
    ((0 : Int) ≤ 5 ∧ (5 : Int) ≤ 13 ∧ (13 : Int) < 2 ^ 63 ∧ -2 ^ 63 ≤ (-3 : Int) ∧
      (-3 : Int) < 2 ^ 63) ∧
    (seekResult ((⟨[newPage], 5, 13⟩ : Buffer).Seek (-3) SeekCurrent)
        = seekRef ⟨[newPage], 5, 13⟩ (-3) SeekCurrent ∧
      seekResult ((⟨[newPage], 5, 13⟩ : Buffer).Seek 13 SeekStart)
        = Except.ok (⟨[newPage], 13, 13⟩, 13) ∧
      ((13 : Int) + 1 < 2 ^ 63 →
        seekResult ((⟨[newPage], 5, 13⟩ : Buffer).Seek (13 + 1) SeekStart)
          = Except.error Err.errSeekOutOfRange)) :=
  ⟨by norm_num,
    Seek_eq_seekRef ⟨[newPage], 5, 13⟩ (-3) SeekCurrent (by norm_num) (by norm_num)
      (by norm_num) (by norm_num) (by norm_num)⟩

/-- C6.  A `Seek` that returns an error (out of range or invalid origin) leaves
the buffer, that is the cursor, the length and the pages, as it was. -/
theorem Seek_error_unchanged (b : Buffer) (offset whence : Int)
    (h : (b.Seek offset whence).2.2 ≠ none) : (b.Seek offset whence).1 = b := by
  unfold Buffer.Seek at h ⊢
  simp only at h ⊢
  split_ifs at h ⊢
  all_goals first
    | rfl
    | (unfold Buffer.setPageI at h ⊢
       split_ifs at h ⊢
       · rfl
       · exact absurd rfl h)

/-- Witness of C6: `Seek(14, io.SeekStart)` on a buffer of length 13. -/
theorem Seek_error_unchanged_witness :
    ((⟨[newPage], 5, 13⟩ : Buffer).Seek 14 SeekStart).2.2 ≠ none ∧
      ((⟨[newPage], 5, 13⟩ : Buffer).Seek 14 SeekStart).1 = ⟨[newPage], 5, 13⟩ :=
  ⟨by decide, Seek_error_unchanged ⟨[newPage], 5, 13⟩ 14 SeekStart (by decide)⟩

/-- C7.  For a reachable buffer and a destination for which `Read` returns:
`n = min(len(dst), lasti - pagei)`; the first `n` bytes of the destination are
the logical bytes at offsets `pagei .. pagei+n-1`, that is
`pages[j >> 15][j & 32767]`; the other bytes of the destination are untouched;
the cursor advances by `n`, `lasti` and the pages are unchanged; the error is
`io.EOF` exactly when `n < len(dst)` and `nil` otherwise; so no byte at or beyond
`lasti` is delivered. -/
theorem Read_postcondition (b : Buffer) (dst : List Byte) (b' : Buffer) (dst' : List Byte)
    (n : Nat) (err : Option Err) (hb : Reachable b)
    (h : b.Read dst = Res.ok (b', dst', n, err)) :
    (n : Int) = min (dst.length : Int) (b.lasti - b.pagei) ∧
    dst'.length = dst.length ∧
    (∀ j, j < n → dst'[j]? = b.byteAt (b.pagei + (j : Int))) ∧
    (∀ j, n ≤ j → dst'[j]? = dst[j]?) ∧
    b'.pagei = b.pagei + (n : Int) ∧ b'.lasti = b.lasti ∧ b'.pages = b.pages ∧
    (err = some Err.EOF ↔ n < dst.length) ∧ (¬ n < dst.length → err = none) ∧
    b.pagei + (n : Int) ≤ b.lasti := by
  obtain ⟨r1, r2, r3, r4, r5, r6, r7, r8⟩ := Read_post b dst b' dst' n err hb.inv h
  refine ⟨r1, r2, r3, r4, r5, r6, r7, ?_, ?_, by omega⟩
  · rw [r8]; split <;> simp [*]
  · intro hn; rw [r8, if_neg hn]

/-- Witness of C7: after `Write("Hello, World!")` and `Seek(0, io.SeekStart)`, a
`Read` into 20 bytes returns 13 bytes and `io.EOF`. -/
theorem Read_postcondition_witness :
    (Reachable (dataBufAt helloWorld 0) ∧
      (dataBufAt helloWorld 0).Read (List.replicate 20 0)
        = Res.ok (dataBufAt helloWorld 13, helloWorld ++ List.replicate 7 0, 13, some Err.EOF)) ∧
    (((13 : Nat) : Int) = min (((List.replicate 20 (0 : Byte)).length : Nat) : Int)
        ((dataBufAt helloWorld 0).lasti - (dataBufAt helloWorld 0).pagei) ∧
    (helloWorld ++ List.replicate 7 (0 : Byte)).length = (List.replicate 20 (0 : Byte)).length ∧
    (∀ j : Nat, j < 13 → (helloWorld ++ List.replicate 7 (0 : Byte))[j]?
      = (dataBufAt helloWorld 0).byteAt ((dataBufAt helloWorld 0).pagei + (j : Int))) ∧
    (∀ j : Nat, 13 ≤ j → (helloWorld ++ List.replicate 7 (0 : Byte))[j]?
      = (List.replicate 20 (0 : Byte))[j]?) ∧
    (dataBufAt helloWorld 13).pagei = (dataBufAt helloWorld 0).pagei + ((13 : Nat) : Int) ∧
    (dataBufAt helloWorld 13).lasti = (dataBufAt helloWorld 0).lasti ∧
    (dataBufAt helloWorld 13).pages = (dataBufAt helloWorld 0).pages ∧
    ((some Err.EOF : Option Err) = some Err.EOF ↔ 13 < (List.replicate 20 (0 : Byte)).length) ∧
    (¬ 13 < (List.replicate 20 (0 : Byte)).length → (some Err.EOF : Option Err) = none) ∧
    (dataBufAt helloWorld 0).pagei + ((13 : Nat) : Int) ≤ (dataBufAt helloWorld 0).lasti) :=
  have hr : (dataBufAt helloWorld 0).Read (List.replicate 20 0)
      = Res.ok (dataBufAt helloWorld 13, helloWorld ++ List.replicate 7 0, 13, some Err.EOF) := by
    have h := Read_dataBufAt helloWorld (List.replicate 20 0) 0 (by decide) (by decide)
      (Or.inl (by decide))
    simpa [helloWorld_length] using h
  ⟨⟨reachable_dataBufAt _ _ (by decide) (by decide), hr⟩,
    Read_postcondition _ _ _ _ _ _ (reachable_dataBufAt _ _ (by decide) (by decide)) hr⟩

/-- C8, at the failing input: the state reached from a new buffer by one
`Write` of exactly one page, where `pagei == lasti == 32768`, and `Read` into a
destination of one byte.  The call panics on `b.pages[1]` instead of returning
`(0, io.EOF)`. -/
theorem read_at_end_of_full_page_panics :
    Reachable (dataBufAt fullPage 32768) ∧
    (dataBufAt fullPage 32768).pagei = (dataBufAt fullPage 32768).lasti ∧
    (dataBufAt fullPage 32768).lasti = 32768 ∧
    (dataBufAt fullPage 32768).Read [0] = Res.panic := by
  have hl := fullPage_length
  have hL := dataBufAt_fullPage_lasti 32768
  have hne : (dataBufAt fullPage 32768).pages.length ≠ 0 := by
    rw [dataBufAt_fullPage_pages]; omega
  have hle : (dataBufAt fullPage 32768).pages.length ≤ 32768 / 32768 := by
    rw [dataBufAt_fullPage_pages]
  refine ⟨reachable_dataBufAt _ _ (by omega) (by omega), ?_, hL, ?_⟩
  · rw [hL]; rfl
  · exact Read_panic_boundary _ [0] 32768 (dataBufAt_inv _ _ (by omega) (by omega)) rfl hL
      hne hle (Nat.zero_lt_one)

/-- C9, at the failing input of the test `rwHelloWorld`: on a new buffer,
`Write("Hello, World!")` returns `(13, nil)`, `Seek(0, io.SeekStart)` returns
`(0, nil)`, and `Read` into 13 bytes returns `n = 13` and the bytes written with
a `nil` error; it does not return them with `io.EOF`, the error that the row of
the test and the claim expect. -/
theorem read_exact_not_eof :
    Buffer.new.Write helloWorld = Res.ok (dataBufAt helloWorld 13, 13, none) ∧
    (dataBufAt helloWorld 13).Seek 0 SeekStart = (dataBufAt helloWorld 0, 0, none) ∧
    (dataBufAt helloWorld 0).Read (List.replicate 13 0)
      = Res.ok (dataBufAt helloWorld 13, helloWorld, 13, none) ∧
    ¬ ∃ b : Buffer, (dataBufAt helloWorld 0).Read (List.replicate 13 0)
      = Res.ok (b, helloWorld, 13, some Err.EOF) := by
  have hr : (dataBufAt helloWorld 0).Read (List.replicate 13 0)
      = Res.ok (dataBufAt helloWorld 13, helloWorld, 13, none) :=
    Read_dataBufAt_all helloWorld _ (by decide) (by decide)
  refine ⟨Write_new helloWorld (by decide), Seek_zero_dataBufAt _ _ (by decide), hr, ?_⟩
  rintro ⟨b, hb⟩
  rw [hr] at hb
  injection hb with hb
  injection hb with _ hb
  injection hb with _ hb
  injection hb with _ hb
  exact absurd hb (by decide)

/-- What the code does on a read that exactly consumes the data.  For every
non-empty byte string `s` shorter than a page, on a new buffer, `Write(s)`
returns `(len(s), nil)`, `Seek(0, io.SeekStart)` returns `(0, nil)`, and `Read`
into a destination of length `len(s)` returns `n = len(s)` and the bytes `s`
with a `nil` error; `io.EOF` comes only with the next `Read`, which for every
non-empty destination returns `(0, io.EOF)` and leaves the destination and the
buffer unchanged. -/
theorem read_exact_then_eof (s dst dst2 : List Byte) (hs : 0 < s.length)
    (hlt : s.length < 32768) (hdst : dst.length = s.length) (hdst2 : 0 < dst2.length) :
    Buffer.new.Write s = Res.ok (dataBufAt s s.length, s.length, none) ∧
    (dataBufAt s s.length).Seek 0 SeekStart = (dataBufAt s 0, 0, none) ∧
    (dataBufAt s 0).Read dst = Res.ok (dataBufAt s s.length, s, s.length, none) ∧
    (dataBufAt s s.length).Read dst2
      = Res.ok (dataBufAt s s.length, dst2, 0, some Err.EOF) :=
  ⟨Write_new s (by omega), Seek_zero_dataBufAt _ _ (by omega),
    Read_dataBufAt_all s dst (by omega) hdst, Read_dataBufAt_end s dst2 hlt hdst2⟩

/-- An instance of `read_exact_then_eof`: "Hello, World!", a destination of 13
bytes and a further destination of one byte. -/
theorem read_exact_then_eof_witness :
    (0 < helloWorld.length ∧ helloWorld.length < 32768 ∧
      (List.replicate 13 (0 : Byte)).length = helloWorld.length ∧
      0 < ([0] : List Byte).length) ∧
    (Buffer.new.Write helloWorld
        = Res.ok (dataBufAt helloWorld helloWorld.length, helloWorld.length, none) ∧
      (dataBufAt helloWorld helloWorld.length).Seek 0 SeekStart
        = (dataBufAt helloWorld 0, 0, none) ∧
      (dataBufAt helloWorld 0).Read (List.replicate 13 0)
        = Res.ok (dataBufAt helloWorld helloWorld.length, helloWorld, helloWorld.length, none) ∧
      (dataBufAt helloWorld helloWorld.length).Read [0]
        = Res.ok (dataBufAt helloWorld helloWorld.length, [0], 0, some Err.EOF)) :=
  ⟨⟨by decide, by decide, by decide, by decide⟩,
    read_exact_then_eof helloWorld (List.replicate 13 0) [0] (by decide) (by decide)
      (by decide) (by decide)⟩

/-- C10.  Every buffer reachable from a new buffer by `Read`, `Write` and `Seek`
calls satisfies `0 <= pagei <= lasti <= len(pages) * 32768`. -/
theorem reachable_bounds (b : Buffer) (hb : Reachable b) :
    0 ≤ b.pagei ∧ b.pagei ≤ b.lasti ∧ b.lasti ≤ (b.pages.length : Int) * 32768 := by
  obtain ⟨i1, i2, i3, -⟩ := hb.inv
  rw [pageSize_eq] at i3
  exact ⟨i1, i2, i3⟩

/-- Witness of C10: the buffer after `Write("Hello, World!")` and
`Seek(5, io.SeekStart)`. -/
theorem reachable_bounds_witness :
    Reachable (dataBufAt helloWorld 5) ∧
    (0 ≤ (dataBufAt helloWorld 5).pagei ∧
      (dataBufAt helloWorld 5).pagei ≤ (dataBufAt helloWorld 5).lasti ∧
      (dataBufAt helloWorld 5).lasti ≤ ((dataBufAt helloWorld 5).pages.length : Int) * 32768) :=
  ⟨reachable_dataBufAt _ _ (by decide) (by decide),
    reachable_bounds _ (reachable_dataBufAt _ _ (by decide) (by decide))⟩

/-- C11.  For every reachable buffer: after a `Write` that returns, `lasti` is
the maximum of the `lasti` before the call and the cursor after it, hence not
smaller than before; `Read` and `Seek` leave `lasti` unchanged. -/
theorem length_monotone (b : Buffer) (hb : Reachable b) :
    (∀ (p : List Byte) (b' : Buffer) (n : Nat) (err : Option Err),
      b.Write p = Res.ok (b', n, err) →
        b'.lasti = max b.lasti b'.pagei ∧ b.lasti ≤ b'.lasti) ∧
    (∀ (p : List Byte) (b' : Buffer) (p' : List Byte) (n : Nat) (err : Option Err),
      b.Read p = Res.ok (b', p', n, err) → b'.lasti = b.lasti) ∧
    (∀ offset whence : Int, (b.Seek offset whence).1.lasti = b.lasti) := by
  refine ⟨?_, ?_, ?_⟩
  · intro p b' n err h
    obtain ⟨-, -, -, r4, -⟩ := Write_post b p b' n err hb.inv h
    exact ⟨r4, by rw [r4]; exact le_max_left _ _⟩
  · intro p b' p' n err h
    exact (Read_post b p b' p' n err hb.inv h).2.2.2.2.2.1
  · intro offset whence
    exact Seek_lasti b offset whence

/-- Witness of C11: the buffer after `Write("Hello, World!")` and
`Seek(5, io.SeekStart)`. -/
theorem length_monotone_witness :
    Reachable (dataBufAt helloWorld 5) ∧
    ((∀ (p : List Byte) (b' : Buffer) (n : Nat) (err : Option Err),
      (dataBufAt helloWorld 5).Write p = Res.ok (b', n, err) →
        b'.lasti = max (dataBufAt helloWorld 5).lasti b'.pagei ∧
          (dataBufAt helloWorld 5).lasti ≤ b'.lasti) ∧
    (∀ (p : List Byte) (b' : Buffer) (p' : List Byte) (n : Nat) (err : Option Err),
      (dataBufAt helloWorld 5).Read p = Res.ok (b', p', n, err) →
        b'.lasti = (dataBufAt helloWorld 5).lasti) ∧
    (∀ offset whence : Int,
      ((dataBufAt helloWorld 5).Seek offset whence).1.lasti = (dataBufAt helloWorld 5).lasti)) :=
  ⟨reachable_dataBufAt _ _ (by decide) (by decide),
    length_monotone _ (reachable_dataBufAt _ _ (by decide) (by decide))⟩

/-- C12.  For every `src` of exactly 32768 bytes, `Write(src)` on a new buffer
returns `(32768, nil)`, allocates exactly one page, which holds `src`, and
leaves `lasti == 32768` and `pagei == 32768`. -/
theorem write_one_page (src : List Byte) (h : src.length = 32768) :
    Buffer.new.Write src = Res.ok (⟨[src], 32768, 32768⟩, 32768, none) := by
  have hw := Write_new src (by omega)
  rw [dataBufAt_of_pos _ _ (by omega), h, pageSize_eq, Nat.sub_self, List.replicate_zero,
    List.append_nil] at hw
  exact hw

/-- Witness of C12: 32768 bytes of value 7. -/
theorem write_one_page_witness :
    fullPage.length = 32768 ∧
    Buffer.new.Write fullPage = Res.ok (⟨[fullPage], 32768, 32768⟩, 32768, none) :=
  ⟨fullPage_length, write_one_page fullPage fullPage_length⟩

/-- C13, at the failing input: the buffer right after `Write` of exactly 32768
bytes to a new buffer, whose cursor and length equal `len(pages) * 32768` with
one page, and the 13 bytes "Hello, World!" as `src`.  `Write(src)` panics on
`b.pages[1]`; it does not append a page. -/
theorem write_on_boundary_panics :
    Reachable ⟨[fullPage], 32768, 32768⟩ ∧
    (⟨[fullPage], 32768, 32768⟩ : Buffer).pagei
      = ((⟨[fullPage], 32768, 32768⟩ : Buffer).pages.length : Int) * 32768 ∧
    (⟨[fullPage], 32768, 32768⟩ : Buffer).lasti
      = ((⟨[fullPage], 32768, 32768⟩ : Buffer).pages.length : Int) * 32768 ∧
    (⟨[fullPage], 32768, 32768⟩ : Buffer).Write helloWorld = Res.panic := by
  have hl := fullPage_length
  have hreach : Reachable ⟨[fullPage], 32768, 32768⟩ := by
    have h := reachable_dataBufAt fullPage 32768 (by omega) (by omega)
    rw [dataBufAt_fullPage] at h
    exact h
  refine ⟨hreach, rfl, rfl, ?_⟩
  exact Write_panic_boundary _ helloWorld 32768 hreach.inv rfl (by omega)
    (by show 1 ≤ 32768 / 32768; omega) (by decide)

/-- C14.  For a buffer with `0 <= pagei <= lasti` (a 64-bit `lasti`), both
`Seek(pagei, io.SeekStart)` and `Seek(0, io.SeekCurrent)` return `(pagei, nil)`
and leave the buffer, that is the cursor, the length and every page, unchanged. -/
theorem Seek_to_cursor_noop (b : Buffer) (h0 : 0 ≤ b.pagei) (h1 : b.pagei ≤ b.lasti)
    (h2 : b.lasti < 2 ^ 63) :
    b.Seek b.pagei SeekStart = (b, b.pagei, none) ∧
    b.Seek 0 SeekCurrent = (b, b.pagei, none) := by
  have hs := setPageI_same b h0 h1
  constructor
  · unfold Buffer.Seek
    have e2 : ¬ SeekStart = SeekCurrent := by decide
    rw [wrapInt_of_range _ (by omega) (by omega)]
    simp only [e2, if_true, if_false, hs]
  · unfold Buffer.Seek
    rw [wrapInt_of_range 0 (by omega) (by omega)]
    simp only [if_true, Int.add_zero]
    rw [wrapInt_of_range _ (by omega) (by omega)]
    simp only [hs]

/-- Witness of C14: a one-page buffer with cursor 5 and length 13. -/
theorem Seek_to_cursor_noop_witness :
    ((0 : Int) ≤ 5 ∧ (5 : Int) ≤ 13 ∧ (13 : Int) < 2 ^ 63) ∧
    ((⟨[newPage], 5, 13⟩ : Buffer).Seek 5 SeekStart = (⟨[newPage], 5, 13⟩, 5, none) ∧
      (⟨[newPage], 5, 13⟩ : Buffer).Seek 0 SeekCurrent = (⟨[newPage], 5, 13⟩, 5, none)) :=
  ⟨by norm_num,
    Seek_to_cursor_noop ⟨[newPage], 5, 13⟩ (by norm_num) (by norm_num) (by norm_num)⟩

/-- C15.  For byte strings `s1`, `s2` with `len(s1) + len(s2) < 32768`, on a new
buffer the calls `Write(s1)`, `Seek(0, io.SeekStart)`, `Read` of `len(s1)` bytes,
`Seek(0, io.SeekCurrent)`, `Write(s2)` all return without error and leave
`lasti == len(s1) + len(s2)`; a following `Seek(0, io.SeekStart)` and `Read` of
`len(s1)` bytes returns `s1`, and the `len(s2)` bytes from offset `len(s1)` are
`s2`, as the pages hold them and as the next `Read` returns them. -/
theorem write_after_read_appends (s1 s2 dst1 dst2 : List Byte)
    (h : s1.length + s2.length < 32768) (hd1 : dst1.length = s1.length)
    (hd2 : dst2.length = s2.length) :
    Buffer.new.Write s1 = Res.ok (dataBufAt s1 s1.length, s1.length, none) ∧
    (dataBufAt s1 s1.length).Seek 0 SeekStart = (dataBufAt s1 0, 0, none) ∧
    (dataBufAt s1 0).Read dst1 = Res.ok (dataBufAt s1 s1.length, s1, s1.length, none) ∧
    (dataBufAt s1 s1.length).Seek 0 SeekCurrent
      = (dataBufAt s1 s1.length, (s1.length : Int), none) ∧
    (dataBufAt s1 s1.length).Write s2
      = Res.ok (dataBufAt (s1 ++ s2) (s1.length + s2.length), s2.length, none) ∧
    (dataBufAt (s1 ++ s2) (s1.length + s2.length)).lasti
      = (s1.length : Int) + (s2.length : Int) ∧
    (dataBufAt (s1 ++ s2) (s1.length + s2.length)).Seek 0 SeekStart
      = (dataBufAt (s1 ++ s2) 0, 0, none) ∧
    (dataBufAt (s1 ++ s2) 0).Read dst1
      = Res.ok (dataBufAt (s1 ++ s2) s1.length, s1, s1.length, none) ∧
    (∀ j : Nat, j < s2.length →
      (dataBufAt (s1 ++ s2) s1.length).byteAt ((s1.length : Int) + (j : Int)) = s2[j]?) ∧
    (dataBufAt (s1 ++ s2) s1.length).Read dst2
      = Res.ok (dataBufAt (s1 ++ s2) (s1.length + s2.length), s2, s2.length, none) := by
  have hlen : (s1 ++ s2).length = s1.length + s2.length := List.length_append _ _
  have hle : (s1 ++ s2).length ≤ 32768 := by omega
  refine ⟨Write_new s1 (by omega), Seek_zero_dataBufAt _ _ (by omega),
    Read_dataBufAt_all s1 dst1 (by omega) hd1,
    Seek_current_zero_dataBufAt s1 _ (by omega) (le_refl _), ?_, ?_,
    Seek_zero_dataBufAt _ _ hle, ?_, ?_, ?_⟩
  · have hw := Write_dataBufAt s1 s2 (by omega)
    rw [hlen] at hw
    exact hw
  · show (((s1 ++ s2).length : Nat) : Int) = _
    rw [hlen]; push_cast; rfl
  · have hr := Read_dataBufAt (s1 ++ s2) dst1 0 hle (Nat.zero_le _) (Or.inl (by omega))
    have e : min dst1.length ((s1 ++ s2).length - 0) = s1.length := by omega
    rw [e, List.drop_zero, List.take_left' rfl, List.drop_eq_nil_of_le (by omega),
      List.append_nil, Nat.zero_add, if_neg (by omega)] at hr
    exact hr
  · intro j hj
    have e : (s1.length : Int) + (j : Int) = ((s1.length + j : Nat) : Int) := by push_cast; rfl
    rw [e, byteAt_dataBufAt (s1 ++ s2) _ (s1.length + j) hle (by omega)]
    rw [List.getElem?_append_right (by omega)]
    congr 1
    omega
  · have hr := Read_dataBufAt (s1 ++ s2) dst2 s1.length hle (by omega) (Or.inl (by omega))
    have e : min dst2.length ((s1 ++ s2).length - s1.length) = s2.length := by omega
    rw [e, List.drop_left' rfl, List.take_length, List.drop_eq_nil_of_le (by omega),
      List.append_nil, if_neg (by omega)] at hr
    exact hr

/-- Witness of C15: the test `rwrwHelloWorld`, "Hello, World!" twice. -/
theorem write_after_read_appends_witness :
    (helloWorld.length + helloWorld.length < 32768 ∧
      (List.replicate 13 (0 : Byte)).length = helloWorld.length ∧
      (List.replicate 13 (0 : Byte)).length = helloWorld.length) ∧
    (Buffer.new.Write helloWorld
      = Res.ok (dataBufAt helloWorld helloWorld.length, helloWorld.length, none) ∧
    (dataBufAt helloWorld helloWorld.length).Seek 0 SeekStart
      = (dataBufAt helloWorld 0, 0, none) ∧
    (dataBufAt helloWorld 0).Read (List.replicate 13 0)
      = Res.ok (dataBufAt helloWorld helloWorld.length, helloWorld, helloWorld.length, none) ∧
    (dataBufAt helloWorld helloWorld.length).Seek 0 SeekCurrent
      = (dataBufAt helloWorld helloWorld.length, (helloWorld.length : Int), none) ∧
    (dataBufAt helloWorld helloWorld.length).Write helloWorld
      = Res.ok (dataBufAt (helloWorld ++ helloWorld) (helloWorld.length + helloWorld.length),
          helloWorld.length, none) ∧
    (dataBufAt (helloWorld ++ helloWorld) (helloWorld.length + helloWorld.length)).lasti
      = (helloWorld.length : Int) + (helloWorld.length : Int) ∧
    (dataBufAt (helloWorld ++ helloWorld) (helloWorld.length + helloWorld.length)).Seek 0
        SeekStart
      = (dataBufAt (helloWorld ++ helloWorld) 0, 0, none) ∧
    (dataBufAt (helloWorld ++ helloWorld) 0).Read (List.replicate 13 0)
      = Res.ok (dataBufAt (helloWorld ++ helloWorld) helloWorld.length, helloWorld,
          helloWorld.length, none) ∧
    (∀ j : Nat, j < helloWorld.length →
      (dataBufAt (helloWorld ++ helloWorld) helloWorld.length).byteAt
        ((helloWorld.length : Int) + (j : Int)) = helloWorld[j]?) ∧
    (dataBufAt (helloWorld ++ helloWorld) helloWorld.length).Read (List.replicate 13 0)
      = Res.ok (dataBufAt (helloWorld ++ helloWorld) (helloWorld.length + helloWorld.length),
          helloWorld, helloWorld.length, none)) :=
  ⟨⟨by decide, by decide, by decide⟩,
    write_after_read_appends helloWorld helloWorld (List.replicate 13 0) (List.replicate 13 0)
      (by decide) (by decide) (by decide)⟩

/-- C16.  For every integer `i >= 0`, `getBufferIndex(i)` has
`pageIndex = i >> 15 = floor(i / 32768)` and `byteIndex = i & 32767 = i mod 32768`,
so `0 <= byteIndex < 32768` and `pageIndex * 32768 + byteIndex = i`. -/
theorem getBufferIndex_exact (i : Int) (h : 0 ≤ i) :
    (getBufferIndex i).pageIndex = i >>> (15 : Nat) ∧
    (getBufferIndex i).pageIndex = i / 32768 ∧
    (getBufferIndex i).byteIndex = Int.land i 32767 ∧
    (getBufferIndex i).byteIndex = i % 32768 ∧
    0 ≤ (getBufferIndex i).byteIndex ∧ (getBufferIndex i).byteIndex < 32768 ∧
    (getBufferIndex i).pageIndex * 32768 + (getBufferIndex i).byteIndex = i := by
  have e := getBufferIndex_nonneg i h
  refine ⟨rfl, ?_, rfl, ?_, ?_, ?_, ?_⟩
  · rw [e]
  · rw [e]
  · rw [e]; show 0 ≤ i % 32768; omega
  · rw [e]; show i % 32768 < 32768; omega
  · rw [e]; show i / 32768 * 32768 + i % 32768 = i; omega

/-- Witness of C16: the offset 100000. -/
theorem getBufferIndex_exact_witness :
    (0 : Int) ≤ 100000 ∧
    ((getBufferIndex 100000).pageIndex = (100000 : Int) >>> (15 : Nat) ∧
    (getBufferIndex 100000).pageIndex = (100000 : Int) / 32768 ∧
    (getBufferIndex 100000).byteIndex = Int.land 100000 32767 ∧
    (getBufferIndex 100000).byteIndex = (100000 : Int) % 32768 ∧
    0 ≤ (getBufferIndex 100000).byteIndex ∧ (getBufferIndex 100000).byteIndex < 32768 ∧
    (getBufferIndex 100000).pageIndex * 32768 + (getBufferIndex 100000).byteIndex = 100000) :=
  ⟨by norm_num, getBufferIndex_exact 100000 (by norm_num)⟩

/-- C17, at the failing input `i = 32768`: `getBufferIndex(32768)` is
`{pageIndex: 1, byteIndex: 0}`, and `value()` of it is `0`, not `32768`, because
`value` shifts the page index by 12 where `getBufferIndex` shifts by
`pagePow2 = 15`. -/
theorem value_getBufferIndex_32768 :
    getBufferIndex 32768 = ⟨1, 0⟩ ∧ (getBufferIndex 32768).value = 0 ∧
    (getBufferIndex 32768).value ≠ 32768 := by
  have e1 : getBufferIndex 32768 = ⟨1, 0⟩ := by decide
  have e2 : (⟨1, 0⟩ : bufferIndex).value = Int.lor (Int.ofNat (Nat.ldiff 4096 32767)) 0 := rfl
  have e3 : (getBufferIndex 32768).value = 0 := by
    rw [e1, e2, ldiff_4096_32767]
    rfl
  exact ⟨e1, e3, by rw [e3]; decide⟩

/-- C18, at the failing input: the buffer reached by one `Write` of exactly one
page and `Seek(0, io.SeekStart)`, and `src` the one byte 9.  The page of the
cursor, page 0, is allocated and `src` fits in it, yet `Write(src)` appends a
page: the number of pages goes from 1 to 2. -/
theorem write_at_zero_appends_unneeded_page :
    Reachable ⟨[fullPage], 0, 32768⟩ ∧
    (getBufferIndex (⟨[fullPage], 0, 32768⟩ : Buffer).pagei).pageIndex
      < ((⟨[fullPage], 0, 32768⟩ : Buffer).pages.length : Int) ∧
    (getBufferIndex (⟨[fullPage], 0, 32768⟩ : Buffer).pagei).byteIndex
      + (([9] : List Byte).length : Int) ≤ 32768 ∧
    (⟨[fullPage], 0, 32768⟩ : Buffer).Write [9]
      = Res.ok (⟨[fullPage, [9] ++ List.replicate (pageSize - 1) 0], 1, 32768⟩, 1, none) ∧
    (⟨[fullPage, [9] ++ List.replicate (pageSize - 1) 0], 1, 32768⟩ : Buffer).pages.length
      = (⟨[fullPage], 0, 32768⟩ : Buffer).pages.length + 1 := by
  have h0 : getBufferIndex (⟨[fullPage], 0, 32768⟩ : Buffer).pagei = ⟨0, 0⟩ := by decide
  refine ⟨reachable_fullPage_zero, ?_, ?_, Write_fullPage_at_zero, rfl⟩
  · rw [h0]; decide
  · rw [h0]; decide

/-- C19.  For a buffer of pages of `pageSize` bytes with
`0 <= lasti <= len(pages) * 32768` and an offset `i` with `0 <= i <= lasti` whose
page index `i >> 15` is below `len(pages)`, `getBufferIndex(i).getPage(b)`
returns the bytes of page `i >> 15` from intra-page offset `i & 32767`, of
length exactly `min(32768 - (i & 32767), lasti - i)`; and on a buffer with no
pages `getPage` returns an empty slice for every index. -/
theorem getPage_clipped (b : Buffer) (i : Int)
    (hpages : ∀ pg ∈ b.pages, pg.length = pageSize)
    (h0 : 0 ≤ b.lasti) (h1 : b.lasti ≤ (b.pages.length : Int) * 32768)
    (hi0 : 0 ≤ i) (hi1 : i ≤ b.lasti)
    (hp : (getBufferIndex i).pageIndex < (b.pages.length : Int)) :
    (∃ pagePtr pg : List Byte,
      b.pages[(getBufferIndex i).pageIndex.toNat]? = some pagePtr ∧
      (getBufferIndex i).getPage b = Res.ok pg ∧
      pg = (pagePtr.drop (getBufferIndex i).byteIndex.toNat).take
        (min (32768 - (getBufferIndex i).byteIndex) (b.lasti - i)).toNat ∧
      (pg.length : Int) = min (32768 - (getBufferIndex i).byteIndex) (b.lasti - i)) ∧
    (∀ (b0 : Buffer) (idx : bufferIndex), b0.pages.length = 0 → idx.getPage b0 = Res.ok []) := by
  constructor
  · obtain ⟨c, hc⟩ := Int.eq_ofNat_of_zero_le hi0
    obtain ⟨L, hL⟩ := Int.eq_ofNat_of_zero_le h0
    subst hc
    have hcL : c ≤ L := by omega
    have hP := pageSize_eq
    have hinv : Inv ⟨b.pages, (c : Int), b.lasti⟩ :=
      ⟨hi0, hi1, by rw [hP]; exact h1, hpages⟩
    have hg := getPage_of_inv ⟨b.pages, (c : Int), b.lasti⟩ c L rfl hL hcL hinv
    have hsame : (getBufferIndex (c : Int)).getPage ⟨b.pages, (c : Int), b.lasti⟩
        = (getBufferIndex (c : Int)).getPage b := rfl
    rw [hsame] at hg
    rw [getBufferIndex_natCast] at hp hg ⊢
    simp only [Int.toNat_ofNat] at hp ⊢
    have hp' : c / 32768 < b.pages.length := by exact_mod_cast hp
    have h00 : ¬ b.pages.length = 0 := by omega
    simp only [h00, if_false, hp', dite_true] at hg
    have hlen : (b.pages.get ⟨c / 32768, hp'⟩).length = 32768 := by
      rw [hpages _ (List.get_mem _ _ _), hP]
    have hm : c % 32768 < 32768 := Nat.mod_lt _ (by norm_num)
    have hmin : (min ((32768 : Int) - ((c % 32768 : Nat) : Int)) (b.lasti - (c : Int))).toNat
        = min (32768 - c % 32768) (L - c) := by
      rw [hL]; omega
    refine ⟨b.pages.get ⟨c / 32768, hp'⟩, _, ?_, hg, ?_, ?_⟩
    · rw [List.get_eq_getElem, List.getElem?_eq_getElem]
    · rw [hmin, take_min_length _ (L - c), List.length_drop, hlen]
    · rw [List.length_take, List.length_drop, hlen, hL]
      omega
  · intro b0 idx h
    unfold bufferIndex.getPage
    rw [if_pos h]

/-- Witness of C19: a one-page buffer of length 13 and the offset 5. -/
theorem getPage_clipped_witness :
    ((∀ pg ∈ (⟨[newPage], 0, 13⟩ : Buffer).pages, pg.length = pageSize) ∧
      (0 : Int) ≤ (⟨[newPage], 0, 13⟩ : Buffer).lasti ∧
      (⟨[newPage], 0, 13⟩ : Buffer).lasti
        ≤ ((⟨[newPage], 0, 13⟩ : Buffer).pages.length : Int) * 32768 ∧
      (0 : Int) ≤ 5 ∧ (5 : Int) ≤ (⟨[newPage], 0, 13⟩ : Buffer).lasti ∧
      (getBufferIndex 5).pageIndex < ((⟨[newPage], 0, 13⟩ : Buffer).pages.length : Int)) ∧
    ((∃ pagePtr pg : List Byte,
      (⟨[newPage], 0, 13⟩ : Buffer).pages[(getBufferIndex 5).pageIndex.toNat]? = some pagePtr ∧
      (getBufferIndex 5).getPage ⟨[newPage], 0, 13⟩ = Res.ok pg ∧
      pg = (pagePtr.drop (getBufferIndex 5).byteIndex.toNat).take
        (min (32768 - (getBufferIndex 5).byteIndex)
          ((⟨[newPage], 0, 13⟩ : Buffer).lasti - 5)).toNat ∧
      (pg.length : Int) = min (32768 - (getBufferIndex 5).byteIndex)
        ((⟨[newPage], 0, 13⟩ : Buffer).lasti - 5)) ∧
    (∀ (b0 : Buffer) (idx : bufferIndex), b0.pages.length = 0 → idx.getPage b0 = Res.ok [])) :=
  have hpg : ∀ pg ∈ (⟨[newPage], 0, 13⟩ : Buffer).pages, pg.length = pageSize := by
    intro pg hpg
    rw [List.mem_singleton.mp hpg, newPage_length]
  have h5 : getBufferIndex 5 = ⟨0, 5⟩ := by decide
  have hidx : (getBufferIndex 5).pageIndex < ((⟨[newPage], 0, 13⟩ : Buffer).pages.length : Int) := by
    rw [h5]; decide
  ⟨⟨hpg, by decide, by decide, by decide, by decide, hidx⟩,
    getPage_clipped ⟨[newPage], 0, 13⟩ 5 hpg (by decide) (by decide) (by decide) (by decide) hidx⟩

/-- C20 as stated fails at the buffer reached by one `Write` of exactly one page
of bytes 7 and `Seek(0, io.SeekStart)`, with `src` a page of bytes 1 followed by
one byte 2.  The cursor is 0, `Write(src)` returns `(32769, nil)` and appends one
page, but when it returns the new last page starts with 2: the second loop
iteration, at cursor 32768, lands on the new page and writes the last byte over
its start.  So the first `min(len(src), 32768)` bytes of `src` are not at the
start of the newly appended last page. -/
theorem write_at_zero_wraps_onto_new_page :
    Reachable ⟨[fullPage], 0, 32768⟩ ∧
    (⟨[fullPage], 0, 32768⟩ : Buffer).pagei = 0 ∧ 0 < onesThenTwo.length ∧
    (⟨[fullPage], 0, 32768⟩ : Buffer).Write onesThenTwo
      = Res.ok (⟨[fullPage, [2] ++ List.replicate (pageSize - 1) 1], 32769, 32769⟩,
          32769, none) ∧
    ¬ (([2] ++ List.replicate (pageSize - 1) 1 : List Byte).take (min onesThenTwo.length 32768)
        = onesThenTwo.take (min onesThenTwo.length 32768)) := by
  refine ⟨reachable_fullPage_zero, rfl, by rw [onesThenTwo_length]; decide,
    Write_fullPage_onesThenTwo, ?_⟩
  intro h
  have hm : min onesThenTwo.length 32768 = 32768 := by rw [onesThenTwo_length]; decide
  rw [hm, onesThenTwo_take] at h
  have h0 := congrArg (fun l : List Byte => l[0]?) h
  simp only at h0
  rw [List.getElem?_take_of_lt (by decide), List.getElem?_append_left (by decide),
    List.getElem?_replicate, if_pos (by rw [pageSize_eq]; decide)] at h0
  exact absurd h0 (by decide)

/-- C20, amended.  For a reachable buffer and a non-empty `src` on which `Write`
returns: if the cursor is 0 at the call, exactly one page is appended, also when
pages exist; the first loop iteration copies the first `min(len(src), 32768)`
bytes of `src` to the start of that new last page and not into page 0; page 0 is
the same after the call as before; the new last page still starts with those
bytes when `Write` returns provided `len(src) <= 32768 * max(1, n)` with `n` the
number of pages before the call (a longer `src` wraps around onto the new page),
and a `src` of at most one page is all in the new page.  If the cursor is
greater than 0, no page is appended. -/
theorem Write_appends_page_iff_cursor_zero (b : Buffer) (src : List Byte) (b' : Buffer)
    (n : Nat) (err : Option Err) (hb : Reachable b) (hs : 0 < src.length)
    (h : b.Write src = Res.ok (b', n, err)) :
    (b.pagei = 0 →
      b'.pages.length = b.pages.length + 1 ∧
      writeBody b src =
        Res.ok (⟨b.pages ++ [src.take (min 32768 src.length)
              ++ List.replicate (pageSize - min 32768 src.length) 0],
            ((min 32768 src.length : Nat) : Int),
            max b.lasti ((min 32768 src.length : Nat) : Int)⟩, min 32768 src.length) ∧
      (∀ pg0 : Page, b.pages[0]? = some pg0 → b'.pages[0]? = some pg0) ∧
      (src.length ≤ 32768 * max 1 b.pages.length →
        b'.pages[b.pages.length]? = some (src.take (min 32768 src.length)
          ++ List.replicate (pageSize - min 32768 src.length) 0)) ∧
      (src.length ≤ 32768 →
        b'.pages = b.pages ++ [src ++ List.replicate (pageSize - src.length) 0])) ∧
    (0 < b.pagei → b'.pages.length = b.pages.length) := by
  have hinv := hb.inv
  have h1 := deferLogData_ok _ _ h
  have hcount := writeLoop_pages_length _ b src 0 b' n err hinv (Nat.zero_le _) h1
  constructor
  · intro hc
    have hbody := writeBody_at_zero b src hinv hc
    have hinv1 := (writeBody_props b src _ _ hinv hs hbody).1
    -- the loop after its first iteration
    obtain ⟨k, hk⟩ : ∃ k, src.length = k + 1 := ⟨src.length - 1, by omega⟩
    have hloop := h1
    rw [hk, writeLoop, if_neg (by omega), List.drop_zero, hbody] at hloop
    simp only [Nat.zero_add] at hloop
    have hfirst : ∀ pg0 : Page, b.pages[0]? = some pg0 →
        (b.pages ++ [src.take (min 32768 src.length)
          ++ List.replicate (pageSize - min 32768 src.length) 0])[0]? = some pg0 := by
      intro pg0 hpg0
      have hlen : 0 < b.pages.length := by
        by_contra hne
        rw [List.getElem?_eq_none (by omega)] at hpg0
        exact absurd hpg0 (by simp)
      rw [List.getElem?_append_left hlen]
      exact hpg0
    have hlast : (b.pages ++ [src.take (min 32768 src.length)
          ++ List.replicate (pageSize - min 32768 src.length) 0])[b.pages.length]?
        = some (src.take (min 32768 src.length)
          ++ List.replicate (pageSize - min 32768 src.length) 0) := by
      rw [List.getElem?_append_right (le_refl _), Nat.sub_self]
      rfl
    refine ⟨?_, hbody, ?_, ?_, ?_⟩
    · rw [hcount, if_pos ⟨hc, hs⟩]
    · intro pg0 hpg0
      by_cases hle : src.length ≤ 32768
      · have hm : min 32768 src.length = src.length := by omega
        rw [hm] at hloop hfirst
        rw [writeLoop_done _ _ _ _ (le_refl _)] at hloop
        injection hloop with hloop
        injection hloop with hb1 _
        rw [← hb1]
        exact hfirst pg0 hpg0
      · have hm : min 32768 src.length = 32768 := by omega
        have hbelow := writeLoop_pages_below _ _ src _ b' n err hinv1
          (by show (0 : Int) < ((min 32768 src.length : Nat) : Int); omega) (by omega) hloop 0
          (by show (((0 : Nat) : Int) + 1) * 32768 ≤ ((min 32768 src.length : Nat) : Int); omega)
        rw [hbelow]
        exact hfirst pg0 hpg0
    · intro hfit
      by_cases hle : src.length ≤ 32768
      · have hm : min 32768 src.length = src.length := by omega
        rw [hm] at hloop hlast ⊢
        rw [writeLoop_done _ _ _ _ (le_refl _)] at hloop
        injection hloop with hloop
        injection hloop with hb1 _
        rw [← hb1]
        exact hlast
      · have hm : min 32768 src.length = 32768 := by omega
        have habove := writeLoop_pages_above _ _ src _ b' n err hinv1
          (by show (0 : Int) < ((min 32768 src.length : Nat) : Int); omega) (by omega) hloop
          b.pages.length (by
            show ((min 32768 src.length : Nat) : Int)
              + ((src.length - min 32768 src.length : Nat) : Int) ≤ _
            omega)
        rw [habove]
        exact hlast
    · intro hle
      have hm : min 32768 src.length = src.length := by omega
      rw [hm, List.take_length] at hloop
      rw [writeLoop_done _ _ _ _ (le_refl _)] at hloop
      injection hloop with hloop
      injection hloop with hb1 _
      rw [← hb1]
  · intro hpos
    rw [hcount, if_neg (by intro hx; have := hx.1; omega), Nat.add_zero]

/-- Witness of the amended C20, at a call with the cursor at 0 and at a call
with the cursor above 0: `Write` of the one byte 9 on the buffer reached by one
`Write` of exactly one page and `Seek(0, io.SeekStart)`, where a page is
appended, and on the buffer right after `Write("Hello, World!")`, cursor 13,
where none is. -/
theorem Write_appends_page_iff_cursor_zero_witness :
    ((Reachable ⟨[fullPage], 0, 32768⟩ ∧ 0 < ([9] : List Byte).length ∧
        (⟨[fullPage], 0, 32768⟩ : Buffer).Write [9]
          = Res.ok (⟨[fullPage, [9] ++ List.replicate (pageSize - 1) 0], 1, 32768⟩, 1, none) ∧
        (⟨[fullPage], 0, 32768⟩ : Buffer).pagei = 0) ∧
      (
      ((⟨[fullPage], 0, 32768⟩ : Buffer).pagei = 0 →
        (⟨[fullPage, [9] ++ List.replicate (pageSize - 1) 0], 1, 32768⟩ : Buffer).pages.length = (⟨[fullPage], 0, 32768⟩ : Buffer).pages.length + 1 ∧
        writeBody (⟨[fullPage], 0, 32768⟩ : Buffer) ([9] : List Byte) =
          Res.ok (⟨(⟨[fullPage], 0, 32768⟩ : Buffer).pages ++ [(([9] : List Byte)).take (min 32768 (([9] : List Byte)).length)
                ++ List.replicate (pageSize - min 32768 (([9] : List Byte)).length) 0],
              ((min 32768 (([9] : List Byte)).length : Nat) : Int),
              max (⟨[fullPage], 0, 32768⟩ : Buffer).lasti ((min 32768 (([9] : List Byte)).length : Nat) : Int)⟩,
            min 32768 (([9] : List Byte)).length) ∧
        (∀ pg0 : Page, (⟨[fullPage], 0, 32768⟩ : Buffer).pages[0]? = some pg0 → (⟨[fullPage, [9] ++ List.replicate (pageSize - 1) 0], 1, 32768⟩ : Buffer).pages[0]? = some pg0) ∧
        ((([9] : List Byte)).length ≤ 32768 * max 1 (⟨[fullPage], 0, 32768⟩ : Buffer).pages.length →
          (⟨[fullPage, [9] ++ List.replicate (pageSize - 1) 0], 1, 32768⟩ : Buffer).pages[(⟨[fullPage], 0, 32768⟩ : Buffer).pages.length]? = some ((([9] : List Byte)).take (min 32768 (([9] : List Byte)).length)
            ++ List.replicate (pageSize - min 32768 (([9] : List Byte)).length) 0)) ∧
        ((([9] : List Byte)).length ≤ 32768 →
          (⟨[fullPage, [9] ++ List.replicate (pageSize - 1) 0], 1, 32768⟩ : Buffer).pages = (⟨[fullPage], 0, 32768⟩ : Buffer).pages ++ [([9] : List Byte) ++ List.replicate (pageSize - (([9] : List Byte)).length) 0])) ∧
      (0 < (⟨[fullPage], 0, 32768⟩ : Buffer).pagei → (⟨[fullPage, [9] ++ List.replicate (pageSize - 1) 0], 1, 32768⟩ : Buffer).pages.length = (⟨[fullPage], 0, 32768⟩ : Buffer).pages.length))) ∧
    ((Reachable (dataBufAt helloWorld helloWorld.length) ∧ 0 < ([9] : List Byte).length ∧
        (dataBufAt helloWorld helloWorld.length).Write [9]
          = Res.ok (dataBufAt (helloWorld ++ [9]) (helloWorld ++ [9]).length, 1, none) ∧
        0 < (dataBufAt helloWorld helloWorld.length).pagei) ∧
      (
      ((dataBufAt helloWorld helloWorld.length).pagei = 0 →
        (dataBufAt (helloWorld ++ [9]) (helloWorld ++ [9]).length).pages.length = (dataBufAt helloWorld helloWorld.length).pages.length + 1 ∧
        writeBody (dataBufAt helloWorld helloWorld.length) ([9] : List Byte) =
          Res.ok (⟨(dataBufAt helloWorld helloWorld.length).pages ++ [(([9] : List Byte)).take (min 32768 (([9] : List Byte)).length)
                ++ List.replicate (pageSize - min 32768 (([9] : List Byte)).length) 0],
              ((min 32768 (([9] : List Byte)).length : Nat) : Int),
              max (dataBufAt helloWorld helloWorld.length).lasti ((min 32768 (([9] : List Byte)).length : Nat) : Int)⟩,
            min 32768 (([9] : List Byte)).length) ∧
        (∀ pg0 : Page, (dataBufAt helloWorld helloWorld.length).pages[0]? = some pg0 → (dataBufAt (helloWorld ++ [9]) (helloWorld ++ [9]).length).pages[0]? = some pg0) ∧
        ((([9] : List Byte)).length ≤ 32768 * max 1 (dataBufAt helloWorld helloWorld.length).pages.length →
          (dataBufAt (helloWorld ++ [9]) (helloWorld ++ [9]).length).pages[(dataBufAt helloWorld helloWorld.length).pages.length]? = some ((([9] : List Byte)).take (min 32768 (([9] : List Byte)).length)
            ++ List.replicate (pageSize - min 32768 (([9] : List Byte)).length) 0)) ∧
        ((([9] : List Byte)).length ≤ 32768 →
          (dataBufAt (helloWorld ++ [9]) (helloWorld ++ [9]).length).pages = (dataBufAt helloWorld helloWorld.length).pages ++ [([9] : List Byte) ++ List.replicate (pageSize - (([9] : List Byte)).length) 0])) ∧
      (0 < (dataBufAt helloWorld helloWorld.length).pagei → (dataBufAt (helloWorld ++ [9]) (helloWorld ++ [9]).length).pages.length = (dataBufAt helloWorld helloWorld.length).pages.length))) :=
  have hB : (dataBufAt helloWorld helloWorld.length).Write [9]
      = Res.ok (dataBufAt (helloWorld ++ [9]) (helloWorld ++ [9]).length, 1, none) :=
    Write_dataBufAt helloWorld [9] (by decide)
  have hrB : Reachable (dataBufAt helloWorld helloWorld.length) :=
    reachable_dataBufAt _ _ (by decide) (by decide)
  ⟨⟨⟨reachable_fullPage_zero, Nat.zero_lt_one, Write_fullPage_at_zero, rfl⟩,
      Write_appends_page_iff_cursor_zero _ [9] _ 1 none reachable_fullPage_zero
        Nat.zero_lt_one Write_fullPage_at_zero⟩,
    ⟨⟨hrB, Nat.zero_lt_one, hB, by decide⟩,
      Write_appends_page_iff_cursor_zero _ [9] _ 1 none hrB Nat.zero_lt_one hB⟩⟩

end Membuf
